import Mathlib

/-!
Verification of the express-otel-observability core: a shallow embedding of
the trace-carrier codec, the guarded span lifecycle at the transport
boundaries, the structured-log pipeline (level filter, OTLP fallback,
sensitive-field redaction), the HTTP metrics middleware and the
observability error middleware, together with theorems settling the
specification's claims against that embedding.
-/

namespace ExpressOtel

/-! ## JavaScript-object records

A `Record` models a plain JavaScript object with string keys and string
values: an ordered association list in which every key occurs at most
once.  `rset` is property assignment (overwrite in place, else append —
preserving JS insertion order), `rget` is property lookup, and `rmerge a b`
is the spread `\x7b ...a, ...b \x7d`.
-/

abbrev Record := List (String × String)

def rset : Record → String → String → Record
  | [], k, v => [(k, v)]
  | (k0, v0) :: r, k, v =>
      if k0 = k then (k, v) :: r else (k0, v0) :: rset r k v

def rget : Record → String → Option String
  | [], _ => none
  | (k0, v0) :: r, k => if k0 = k then some v0 else rget r k

def rmerge (a b : Record) : Record :=
  b.foldl (fun acc kv => rset acc kv.1 kv.2) a

theorem rget_rset (r : Record) (k v k1 : String) :
    rget (rset r k v) k1 = if k = k1 then some v else rget r k1 := by
  induction r with
  | nil =>
      by_cases h : k = k1 <;> simp [rset, rget, h]
  | cons kv r ih =>
      obtain ⟨k0, v0⟩ := kv
      by_cases h0 : k0 = k
      · subst h0
        by_cases h : k0 = k1 <;> simp [rset, rget, h]
      · by_cases h : k0 = k1
        · subst h
          have hk : ¬ k = k0 := fun hh => h0 hh.symm
          simp [rset, rget, h0, hk]
        · simp [rset, rget, h0, h, ih]

theorem rget_eq_none_of_not_mem (b : Record) (k : String)
    (h : k ∉ b.map Prod.fst) : rget b k = none := by
  induction b with
  | nil => rfl
  | cons kv b ih =>
      obtain ⟨k0, v0⟩ := kv
      simp only [List.map_cons, List.mem_cons, not_or] at h
      have hne : ¬ k0 = k := fun hh => h.1 hh.symm
      simp [rget, hne, ih h.2]

theorem rget_rmerge (a b : Record) (k : String)
    (hb : (b.map Prod.fst).Nodup) :
    rget (rmerge a b) k =
      match rget b k with
      | some v => some v
      | none => rget a k := by
  induction b generalizing a with
  | nil => simp [rmerge, rget]
  | cons kv b ih =>
      obtain ⟨k0, v0⟩ := kv
      simp only [List.map_cons, List.nodup_cons] at hb
      have hmerge : rmerge a ((k0, v0) :: b) = rmerge (rset a k0 v0) b := by
        simp [rmerge]
      rw [hmerge, ih (rset a k0 v0) hb.2]
      by_cases hk : k0 = k
      · subst hk
        have hnone : rget b k0 = none := rget_eq_none_of_not_mem b k0 hb.1
        simp [hnone, rget, rget_rset]
      · simp [rget, hk, rget_rset]

/-! ## C1 — socket-event trace-carrier assembly

Embedding of `extractTraceContext` and `headersToCarrier` from
`src/interceptors/socketio-interceptor.ts`.  A handshake header value is a
string, a string array, or `undefined`; query values model the truthiness
check of `socket.handshake?.query?.traceparent` (the empty string is
falsy).  The payload side is abstracted to the `_trace` field of the first
event argument: `some tr` exactly when the first argument is an object
with a `_trace` property holding the record `tr`.
-/

inductive HeaderVal where
  | str (s : String)
  | arr (l : List String)
  | undef
  deriving DecidableEq

structure Handshake where
  headers : Option (List (String × HeaderVal))
  queryTraceparent : Option String
  queryTracestate : Option String
  deriving DecidableEq

structure SocketModel where
  handshake : Option Handshake
  deriving DecidableEq

/-- `key.toLowerCase()` on an ASCII header key. -/
def jsToLower (s : String) : String :=
  String.mk (s.data.map Char.toLower)

def headersToCarrier (headers : List (String × HeaderVal)) : Record :=
  headers.foldl
    (fun carrier kv =>
      match kv.2 with
      | .str s => rset carrier (jsToLower kv.1) s
      | .arr [] => carrier
      | .arr (v :: _) => rset carrier (jsToLower kv.1) v
      | .undef => carrier)
    []

/-- The handshake-header carrier used as the starting point of
`extractTraceContext` (step 1 of the source). -/
def handshakeCarrier (socket : SocketModel) : Record :=
  match socket.handshake with
  | some h =>
      match h.headers with
      | some hs => headersToCarrier hs
      | none => []
  | none => []

/-- JS truthiness of an optional string: present and nonempty. -/
def truthyStr : Option String → Bool
  | some s => !(s = "")
  | none => false

/-- Step 2 of `extractTraceContext`: spread the payload `_trace` record
(when the first event argument has one) over the carrier built so far. -/
def payloadOverlay (base : Record) (traceArg : Option Record) : Record :=
  match traceArg with
  | some tr => rmerge base tr
  | none => base

/-- The carrier built by `extractTraceContext` (socketio-interceptor.ts,
lines 157–187): handshake headers first, then the payload `_trace` record
spread over it, then query `traceparent`/`tracestate` overriding those two
keys when truthy. -/
def extractTraceCarrier (socket : SocketModel) (traceArg : Option Record) :
    Record :=
  let carrier := payloadOverlay (handshakeCarrier socket) traceArg
  let carrier :=
    match socket.handshake with
    | some h =>
        if truthyStr h.queryTraceparent then
          rset carrier "traceparent" (h.queryTraceparent.getD "")
        else carrier
    | none => carrier
  match socket.handshake with
  | some h =>
      if truthyStr h.queryTracestate then
        rset carrier "tracestate" (h.queryTracestate.getD "")
      else carrier
  | none => carrier

/-- Modelled from the spec (claim C1's wording, not the source): consult
the three sources in priority order — payload `_trace`, handshake header
carrier, query parameters — and use only the first source that matches,
never merging keys across sources. -/
def claimC1Carrier (socket : SocketModel) (traceArg : Option Record) :
    Record :=
  match traceArg with
  | some tr => tr
  | none =>
      match socket.handshake with
      | some h =>
          match h.headers with
          | some hs => headersToCarrier hs
          | none =>
              (if truthyStr h.queryTraceparent then
                [("traceparent", h.queryTraceparent.getD "")] else []) ++
              (if truthyStr h.queryTracestate then
                [("tracestate", h.queryTracestate.getD "")] else [])
      | none => []

/-- The query-parameter override of the socket carrier: query `traceparent`
and `tracestate`, when truthy, take precedence for exactly those two keys. -/
def queryOverride (socket : SocketModel) (k : String) : Option String :=
  match socket.handshake with
  | some h =>
      if k = "traceparent" ∧ truthyStr h.queryTraceparent = true then
        some (h.queryTraceparent.getD "")
      else if k = "tracestate" ∧ truthyStr h.queryTracestate = true then
        some (h.queryTracestate.getD "")
      else none
  | none => none

/-- The amended claim C1, per key: the socket carrier is a merge of the
three sources in which later sources win — query parameters (for the two
trace keys) over the payload `_trace` record over the lowercased
handshake-header carrier. -/
def amendedC1Lookup (socket : SocketModel) (traceArg : Option Record)
    (k : String) : Option String :=
  match queryOverride socket k with
  | some v => some v
  | none =>
      match rget (traceArg.getD []) k with
      | some v => some v
      | none => rget (handshakeCarrier socket) k

/-- C1 counterexample socket: handshake headers carry a `traceparent` and a
`baggage` key, and the payload `_trace` field carries a different
`traceparent`. -/
def c1Socket : SocketModel :=
  { handshake := some
      { headers := some
          [("traceparent", .str "hdr-tp"), ("baggage", .str "hdr-bag")]
        queryTraceparent := none
        queryTracestate := none } }

def c1TraceArg : Option Record := some [("traceparent", "payload-tp")]

/-- C1: the claim is false — on a socket whose handshake headers and
payload `_trace` field are both present, the carrier passed to extraction
merges keys from both sources (`traceparent` from the payload, `baggage`
from the headers), instead of using only the first matching source. -/
theorem c1_counterexample :
    extractTraceCarrier c1Socket c1TraceArg ≠
      claimC1Carrier c1Socket c1TraceArg := by
  decide

/-- C1 (amended): for every inbound socket event the carrier passed to
trace-context extraction is the per-key merge of the three sources with
later sources winning: the lowercased handshake-header carrier is the
base, every key of the payload `_trace` record overrides it, and truthy
query `traceparent`/`tracestate` parameters override those two keys. -/
theorem c1_amended_merge_priority (socket : SocketModel)
    (traceArg : Option Record) (k : String)
    (hnd : ((traceArg.getD []).map Prod.fst).Nodup) :
    rget (extractTraceCarrier socket traceArg) k =
      amendedC1Lookup socket traceArg k := by
  have hm : rget (payloadOverlay (handshakeCarrier socket) traceArg) k
      = (match rget (traceArg.getD []) k with
        | some v => some v
        | none => rget (handshakeCarrier socket) k) := by
    cases traceArg with
    | none =>
        simp only [payloadOverlay, Option.getD]
        cases h : rget (handshakeCarrier socket) k <;> simp [rget, h]
    | some tr =>
        simpa [payloadOverlay] using
          rget_rmerge (handshakeCarrier socket) tr k hnd
  unfold extractTraceCarrier amendedC1Lookup queryOverride
  cases hh : socket.handshake with
  | none => simpa using hm
  | some h =>
      by_cases hk1 : k = "traceparent"
      · subst hk1
        have hk2 : ¬ ("traceparent" : String) = "tracestate" := by decide
        by_cases hqp : truthyStr h.queryTraceparent = true <;>
        by_cases hqs : truthyStr h.queryTracestate = true <;>
          simp [hqp, hqs, rget_rset, hk2, hm, Ne.symm hk2]
      · by_cases hk2 : k = "tracestate"
        · subst hk2
          have hne : ¬ ("traceparent" : String) = "tracestate" := by decide
          by_cases hqp : truthyStr h.queryTraceparent = true <;>
          by_cases hqs : truthyStr h.queryTracestate = true <;>
            simp [hqp, hqs, rget_rset, hne, hm]
        · have h1 : ¬ ("traceparent" : String) = k := fun hh0 => hk1 hh0.symm
          have h2 : ¬ ("tracestate" : String) = k := fun hh0 => hk2 hh0.symm
          by_cases hqp : truthyStr h.queryTraceparent = true <;>
          by_cases hqs : truthyStr h.queryTracestate = true <;>
            simp [hqp, hqs, rget_rset, hk1, hk2, h1, h2, hm]

/-- C1 amended witness: the amended characterization evaluated on the
counterexample socket, at the `traceparent` and `baggage` keys. -/
theorem c1_amended_witness :
    (([("traceparent", "payload-tp")] : Record).map Prod.fst).Nodup ∧
      rget (extractTraceCarrier c1Socket c1TraceArg) "traceparent" =
        amendedC1Lookup c1Socket c1TraceArg "traceparent" ∧
      rget (extractTraceCarrier c1Socket c1TraceArg) "baggage" =
        amendedC1Lookup c1Socket c1TraceArg "baggage" :=
  ⟨by decide,
    c1_amended_merge_priority c1Socket c1TraceArg "traceparent" (by decide),
    c1_amended_merge_priority c1Socket c1TraceArg "baggage" (by decide)⟩

/-! ## C2 — span lifecycle of the guarded boundary operations

The three guarded operations (`wrapConsumer` and the patched `send` in the
RabbitMQ interceptor, the wrapped event handler in the Socket.IO
interceptor) share the same `try`/`catch`/`finally` discipline.  A thrown
JS value is either an `Error` instance (with a message) or any other
value; the `catch` blocks record the exception and set error status only
behind an `instanceof Error` check, record a failure metric, and re-throw;
the `finally` block ends the span.  Durations are wall-clock and outside
the model.
-/

inductive Thrown where
  | errorVal (msg : String)
  | nonError (v : String)
  deriving DecidableEq

inductive HandlerOutcome (T : Type) where
  | ok (t : T)
  | thrown (e : Thrown)
  deriving DecidableEq

inductive SpanStatus where
  | unset
  | okS
  | errorS (msg : String)
  deriving DecidableEq

structure SpanRec where
  endCount : Nat
  status : SpanStatus
  recorded : List Thrown
  deriving DecidableEq

def initialSpan : SpanRec := { endCount := 0, status := .unset, recorded := [] }

/-- `span.end()` in the `finally` block. -/
def endSpan (s : SpanRec) : SpanRec := { s with endCount := s.endCount + 1 }

/-- The common `catch` block: `if (error instanceof Error) \x7b
span.recordException(error); span.setStatus(\x7b code: ERROR, message:
error.message \x7d) \x7d`. -/
def catchBlock (s : SpanRec) (e : Thrown) : SpanRec :=
  match e with
  | .errorVal m => { s with recorded := s.recorded ++ [e], status := .errorS m }
  | .nonError _ => s

structure RabbitMetric where
  queue : String
  exchange : Option String
  routingKey : Option String
  operation : String
  success : Bool
  deriving DecidableEq

structure WsMetric where
  event : String
  success : Bool
  deriving DecidableEq

/-- `wrapConsumer` (rabbitmq interceptor, lines 492–568), with the
handler's outcome supplied as data: the result value or thrown value, the
final consumer span, and the metric records emitted. -/
def wrapConsumerRun {T : Type} (queue exchange routingKey : String)
    (outcome : HandlerOutcome T) :
    HandlerOutcome T × SpanRec × List RabbitMetric :=
  match outcome with
  | .ok t =>
      let span := { initialSpan with status := SpanStatus.okS }
      (.ok t, endSpan span,
        [{ queue := queue, exchange := some exchange,
           routingKey := some routingKey, operation := "consume",
           success := true }])
  | .thrown e =>
      let span := catchBlock initialSpan e
      (.thrown e, endSpan span,
        [{ queue := queue, exchange := some exchange,
           routingKey := some routingKey, operation := "consume",
           success := false }])

/-- The wrapped Socket.IO event handler (socketio-interceptor.ts, lines
86–147). -/
def wsWrappedHandlerRun {T : Type} (event : String)
    (outcome : HandlerOutcome T) :
    HandlerOutcome T × SpanRec × List WsMetric :=
  match outcome with
  | .ok t =>
      let span := { initialSpan with status := SpanStatus.okS }
      (.ok t, endSpan span, [{ event := event, success := true }])
  | .thrown e =>
      let span := catchBlock initialSpan e
      (.thrown e, endSpan span, [{ event := event, success := false }])

/-- The patched `proto.send` publish wrapper (rabbitmq interceptor, lines
381–450), with the original `send`'s outcome supplied as data. -/
def patchedSendRun {T : Type} (queue : String) (outcome : HandlerOutcome T) :
    HandlerOutcome T × SpanRec × List RabbitMetric :=
  match outcome with
  | .ok t =>
      let span := { initialSpan with status := SpanStatus.okS }
      (.ok t, endSpan span,
        [{ queue := queue, exchange := none, routingKey := none,
           operation := "publish", success := true }])
  | .thrown e =>
      let span := catchBlock initialSpan e
      (.thrown e, endSpan span,
        [{ queue := queue, exchange := none, routingKey := none,
           operation := "publish", success := false }])

/-- C2: the claim is false for non-`Error` thrown values — a consumer
handler that throws the bare string value `"boom"` leaves the span status
unset (not error) and records no exception on the span, because the
`catch` block guards both effects behind `instanceof Error`; the span is
still ended and the value re-thrown. -/
theorem c2_counterexample :
    (wrapConsumerRun (T := Unit) "orders" "ex" "rk"
        (.thrown (.nonError "boom"))).2.1.status = SpanStatus.unset ∧
    (wrapConsumerRun (T := Unit) "orders" "ex" "rk"
        (.thrown (.nonError "boom"))).2.1.recorded = [] ∧
    (wrapConsumerRun (T := Unit) "orders" "ex" "rk"
        (.thrown (.nonError "boom"))).1 = .thrown (.nonError "boom") := by
  decide

/-- C2 (amended): for every guarded boundary operation whose handler
throws, the span is ended exactly once, a failure metric is recorded, and
the thrown value reaches the caller unmodified; additionally, when the
thrown value is an `Error` instance the span status is set to error with
the exception's message and the exception is recorded on the span, while a
non-`Error` thrown value leaves the status unset and records nothing. -/
theorem c2_amended_guarded_throw (queue exchange routingKey event : String)
    (e : Thrown) :
    ((wrapConsumerRun (T := Unit) queue exchange routingKey
          (.thrown e)).1 = .thrown e ∧
      (wrapConsumerRun (T := Unit) queue exchange routingKey
          (.thrown e)).2.1.endCount = 1 ∧
      (wrapConsumerRun (T := Unit) queue exchange routingKey
          (.thrown e)).2.1.status =
        (match e with
          | .errorVal m => SpanStatus.errorS m
          | .nonError _ => SpanStatus.unset) ∧
      (wrapConsumerRun (T := Unit) queue exchange routingKey
          (.thrown e)).2.1.recorded =
        (match e with | .errorVal _ => [e] | .nonError _ => []) ∧
      (wrapConsumerRun (T := Unit) queue exchange routingKey
          (.thrown e)).2.2.map RabbitMetric.success = [false]) ∧
    ((wsWrappedHandlerRun (T := Unit) event (.thrown e)).1 = .thrown e ∧
      (wsWrappedHandlerRun (T := Unit) event (.thrown e)).2.1.endCount = 1 ∧
      (wsWrappedHandlerRun (T := Unit) event (.thrown e)).2.1.status =
        (match e with
          | .errorVal m => SpanStatus.errorS m
          | .nonError _ => SpanStatus.unset) ∧
      (wsWrappedHandlerRun (T := Unit) event (.thrown e)).2.1.recorded =
        (match e with | .errorVal _ => [e] | .nonError _ => []) ∧
      (wsWrappedHandlerRun (T := Unit) event
          (.thrown e)).2.2.map WsMetric.success = [false]) ∧
    ((patchedSendRun (T := Unit) queue (.thrown e)).1 = .thrown e ∧
      (patchedSendRun (T := Unit) queue (.thrown e)).2.1.endCount = 1 ∧
      (patchedSendRun (T := Unit) queue (.thrown e)).2.1.status =
        (match e with
          | .errorVal m => SpanStatus.errorS m
          | .nonError _ => SpanStatus.unset) ∧
      (patchedSendRun (T := Unit) queue (.thrown e)).2.1.recorded =
        (match e with | .errorVal _ => [e] | .nonError _ => []) ∧
      (patchedSendRun (T := Unit) queue
          (.thrown e)).2.2.map RabbitMetric.success = [false]) := by
  cases e <;>
    simp [wrapConsumerRun, wsWrappedHandlerRun, patchedSendRun, catchBlock,
      endSpan, initialSpan]

/-! ## C3 — console fallback of the log pipeline

`StructuredLogger.writeLog` (structured-logger, lines 155–186) and
`WinstonOtelTransport.log` (winston-otel-transport.ts, lines 92–144).  The
otel-logger module itself is not among the provided sources; its interface
is modelled from the spec: `isOtelLoggerAvailable` reads the availability
flag, `emitOtelLog` attempts the remote emission and returns whether it
succeeded.  Those two observations enter the model as the booleans
`otelAvailable` and `emitOutcome`.
-/

inductive LogLevel where
  | debug
  | info
  | warn
  | error
  deriving DecidableEq

/-- `LOG_LEVEL_PRIORITY` (structured-logger, lines 8–13). -/
def logLevelPriority : LogLevel → Nat
  | .debug => 0
  | .info => 1
  | .warn => 2
  | .error => 3

structure SLConfig where
  logLevel : LogLevel
  enableOtlpLogs : Bool
  enableConsoleLogs : Bool
  deriving DecidableEq

structure WriteRes where
  otlpAttempted : Bool
  otlpSuccess : Bool
  consoleWritten : Bool
  deriving DecidableEq

/-- `StructuredLogger.writeLog`: drop below-threshold entries; attempt
OTLP when enabled and the availability flag is set; write to console when
console output is enabled or the OTLP attempt did not succeed while OTLP
was enabled. -/
def writeLogRun (cfg : SLConfig) (otelAvailable emitOutcome : Bool)
    (level : LogLevel) : WriteRes :=
  if logLevelPriority level < logLevelPriority cfg.logLevel then
    { otlpAttempted := false, otlpSuccess := false, consoleWritten := false }
  else
    let attempted := cfg.enableOtlpLogs && otelAvailable
    let otlpSuccess := attempted && emitOutcome
    { otlpAttempted := attempted
      otlpSuccess := otlpSuccess
      consoleWritten :=
        cfg.enableConsoleLogs || (!otlpSuccess && cfg.enableOtlpLogs) }

/-- `WinstonOtelTransport.log`, emission and console part (lines 133–144):
send to OTLP when enabled and available (ignoring the emission result),
and write to console exactly when console output is enabled. -/
def winstonLogRun (enableOtlp enableConsole otelAvailable : Bool) :
    WriteRes :=
  { otlpAttempted := enableOtlp && otelAvailable
    otlpSuccess := false
    consoleWritten := enableConsole }

/-- C3: the claim is false for the Winston transport — with OTLP enabled
but the export path marked unavailable and console output configured off,
`WinstonOtelTransport.log` writes no console line (it has no fallback
branch). -/
theorem c3_counterexample :
    (winstonLogRun true false false).consoleWritten = false := by
  decide

/-- C3 (amended): `StructuredLogger.writeLog` always writes a console line
for an at-threshold entry when OTLP logging is enabled and the remote path
is unavailable or the emission fails, even with console output configured
off; the Winston transport, by contrast, writes a console line exactly
when its console flag is on, with no fallback. -/
theorem c3_amended_console_fallback (cfg : SLConfig)
    (otelAvailable emitOutcome : Bool) (level : LogLevel)
    (hlvl : logLevelPriority cfg.logLevel ≤ logLevelPriority level)
    (hotlp : cfg.enableOtlpLogs = true)
    (hfail : otelAvailable = false ∨ emitOutcome = false) :
    (writeLogRun cfg otelAvailable emitOutcome level).consoleWritten =
        true ∧
      ∀ eo ec av : Bool, (winstonLogRun eo ec av).consoleWritten = ec := by
  refine ⟨?_, fun eo ec av => rfl⟩
  have hnot : ¬ logLevelPriority level < logLevelPriority cfg.logLevel :=
    Nat.not_lt.mpr hlvl
  rcases hfail with h | h <;>
    simp [writeLogRun, hnot, hotlp, h]

/-- C3 amended witness: an `error`-level write with OTLP enabled, console
off and the availability flag false produces a console line. -/
theorem c3_amended_witness :
    (writeLogRun
        { logLevel := .info, enableOtlpLogs := true,
          enableConsoleLogs := false } false false
        LogLevel.error).consoleWritten = true :=
  (c3_amended_console_fallback
    { logLevel := .info, enableOtlpLogs := true, enableConsoleLogs := false }
    false false LogLevel.error (by decide) (by decide) (Or.inl rfl)).1

/-! ## C4 — recursive sensitive-field redaction

`maskSensitiveData` appears with an identical body in
`StructuredLogger` (structured-logger, lines 248–279) and
`WinstonOtelTransport` (winston-otel-transport.ts, lines 278–309); the
embedding below stands for both.  Metadata values are JSON-like: scalars,
arrays and string-keyed mappings, as a mutual inductive family.  JS
`Object.entries` on an array yields decimal-index keys, so
`maskSensitiveData` applied to an array element that is itself an array
walks its index-keyed entries and returns a mapping — `maskIndexedEntries`
below.
-/

mutual
inductive Sjson where
  | str (s : String)
  | num (n : Int)
  | boolean (b : Bool)
  | null
  | arr (items : SjsonItems)
  | obj (fields : SjsonFields)
inductive SjsonItems where
  | nil
  | cons (head : Sjson) (tail : SjsonItems)
inductive SjsonFields where
  | nil
  | cons (key : String) (value : Sjson) (tail : SjsonFields)
end

/-- Does `sub` occur as a contiguous subsequence of the list? -/
def containsSeq (sub : List Char) : List Char → Bool
  | [] => sub.isEmpty
  | c :: rest => List.isPrefixOf sub (c :: rest) || containsSeq sub rest

/-- JS `hay.includes(sub)`. -/
def jsIncludes (hay sub : String) : Bool :=
  containsSeq sub.data hay.data

/-- The sensitivity test of `maskSensitiveData`:
`this.sensitiveFields.some(field => lowerKey.includes(field.toLowerCase()))`
with `lowerKey = key.toLowerCase()`. -/
def isSensitiveKey (sensitiveFields : List String) (key : String) : Bool :=
  sensitiveFields.any fun field => jsIncludes (jsToLower key) (jsToLower field)

mutual
/-- The entry loop of `maskSensitiveData` over a record's entries. -/
def maskFields (sf : List String) : SjsonFields → SjsonFields
  | .nil => .nil
  | .cons k v t => .cons k (maskEntryValue sf k v) (maskFields sf t)
/-- One entry's value: redact when the key is sensitive, recurse into
nested objects, map over arrays, and pass scalars through. -/
def maskEntryValue (sf : List String) (k : String) (v : Sjson) : Sjson :=
  if isSensitiveKey sf k then .str "[REDACTED]"
  else
    match v with
    | .obj fields => .obj (maskFields sf fields)
    | .arr items => .arr (maskArrayItems sf items)
    | other => other
/-- The array branch: `value.map(item => typeof item === 'object' && item
!== null ? this.maskSensitiveData(item) : item)`; an array item is
handed back to `maskSensitiveData`, which walks its index-keyed
`Object.entries` and yields a mapping. -/
def maskArrayItems (sf : List String) : SjsonItems → SjsonItems
  | .nil => .nil
  | .cons h t =>
      .cons
        (match h with
          | .obj fields => .obj (maskFields sf fields)
          | .arr inner => .obj (maskIndexedEntries sf 0 inner)
          | other => other)
        (maskArrayItems sf t)
/-- `maskSensitiveData` applied to an array: the entry loop over the
array's `Object.entries`, whose keys are the decimal indices. -/
def maskIndexedEntries (sf : List String) : Nat → SjsonItems → SjsonFields
  | _, .nil => .nil
  | i, .cons h t =>
      .cons (toString i) (maskEntryValue sf (toString i) h)
        (maskIndexedEntries sf (i + 1) t)
end

/-- Top-level `maskSensitiveData(data)` on a metadata mapping. -/
def maskSensitiveData (sf : List String) (data : SjsonFields) : SjsonFields :=
  maskFields sf data

mutual
/-- Every sensitive-keyed entry of the value, at any depth, holds the
redaction marker. -/
def redactedOkV (sf : List String) : Sjson → Prop
  | .arr items => redactedOkI sf items
  | .obj fields => redactedOkF sf fields
  | _ => True
def redactedOkI (sf : List String) : SjsonItems → Prop
  | .nil => True
  | .cons h t => redactedOkV sf h ∧ redactedOkI sf t
def redactedOkF (sf : List String) : SjsonFields → Prop
  | .nil => True
  | .cons k v t =>
      (isSensitiveKey sf k = true → v = .str "[REDACTED]") ∧
        redactedOkV sf v ∧ redactedOkF sf t
end

/-- The four redaction invariants of the mask functions, proved together
by strong induction on size. -/
theorem redactedOk_main (sf : List String) (n : Nat) :
    (∀ (k : String) (v : Sjson), sizeOf v ≤ n →
        (isSensitiveKey sf k = true →
            maskEntryValue sf k v = .str "[REDACTED]") ∧
          redactedOkV sf (maskEntryValue sf k v)) ∧
      (∀ fs : SjsonFields, sizeOf fs ≤ n →
        redactedOkF sf (maskFields sf fs)) ∧
      (∀ its : SjsonItems, sizeOf its ≤ n →
        redactedOkI sf (maskArrayItems sf its)) ∧
      (∀ (i : Nat) (its : SjsonItems), sizeOf its ≤ n →
        redactedOkF sf (maskIndexedEntries sf i its)) := by
  induction n using Nat.strong_induction_on with
  | _ n ih =>
  refine ⟨?_, ?_, ?_, ?_⟩
  · intro k v hv
    by_cases h : isSensitiveKey sf k = true
    · cases v <;> simp [maskEntryValue, h, redactedOkV]
    · refine ⟨fun hh => absurd hh h, ?_⟩
      cases v with
      | arr items =>
          simp only [Sjson.arr.sizeOf_spec] at hv
          simp only [maskEntryValue, h, if_false, redactedOkV]
          exact (ih (sizeOf items) (by omega)).2.2.1 items (le_refl _)
      | obj fields =>
          simp only [Sjson.obj.sizeOf_spec] at hv
          simp only [maskEntryValue, h, if_false, redactedOkV]
          exact (ih (sizeOf fields) (by omega)).2.1 fields (le_refl _)
      | str s => simp [maskEntryValue, h, redactedOkV]
      | num m => simp [maskEntryValue, h, redactedOkV]
      | boolean b => simp [maskEntryValue, h, redactedOkV]
      | null => simp [maskEntryValue, h, redactedOkV]
  · intro fs hfs
    cases fs with
    | nil => simp [maskFields, redactedOkF]
    | cons k v t =>
        simp only [SjsonFields.cons.sizeOf_spec] at hfs
        simp only [maskFields, redactedOkF]
        exact ⟨((ih (sizeOf v) (by omega)).1 k v (le_refl _)).1,
          ((ih (sizeOf v) (by omega)).1 k v (le_refl _)).2,
          (ih (sizeOf t) (by omega)).2.1 t (le_refl _)⟩
  · intro its hits
    cases its with
    | nil => simp [maskArrayItems, redactedOkI]
    | cons h t =>
        simp only [SjsonItems.cons.sizeOf_spec] at hits
        cases h with
        | arr inner =>
            simp only [Sjson.arr.sizeOf_spec] at hits
            simp only [maskArrayItems, redactedOkI, redactedOkV]
            exact ⟨(ih (sizeOf inner) (by omega)).2.2.2 0 inner (le_refl _),
              (ih (sizeOf t) (by omega)).2.2.1 t (le_refl _)⟩
        | obj fields =>
            simp only [Sjson.obj.sizeOf_spec] at hits
            simp only [maskArrayItems, redactedOkI, redactedOkV]
            exact ⟨(ih (sizeOf fields) (by omega)).2.1 fields (le_refl _),
              (ih (sizeOf t) (by omega)).2.2.1 t (le_refl _)⟩
        | str s =>
            simp only [maskArrayItems, redactedOkI, redactedOkV]
            exact ⟨trivial, (ih (sizeOf t) (by omega)).2.2.1 t (le_refl _)⟩
        | num m =>
            simp only [maskArrayItems, redactedOkI, redactedOkV]
            exact ⟨trivial, (ih (sizeOf t) (by omega)).2.2.1 t (le_refl _)⟩
        | boolean b =>
            simp only [maskArrayItems, redactedOkI, redactedOkV]
            exact ⟨trivial, (ih (sizeOf t) (by omega)).2.2.1 t (le_refl _)⟩
        | null =>
            simp only [maskArrayItems, redactedOkI, redactedOkV]
            exact ⟨trivial, (ih (sizeOf t) (by omega)).2.2.1 t (le_refl _)⟩
  · intro i its hits
    cases its with
    | nil => simp [maskIndexedEntries, redactedOkF]
    | cons h t =>
        simp only [SjsonItems.cons.sizeOf_spec] at hits
        simp only [maskIndexedEntries, redactedOkF]
        exact ⟨((ih (sizeOf h) (by omega)).1 (toString i) h (le_refl _)).1,
          ((ih (sizeOf h) (by omega)).1 (toString i) h (le_refl _)).2,
          (ih (sizeOf t) (by omega)).2.2.2 (i + 1) t (le_refl _)⟩

theorem redactedOk_maskFields (sf : List String) (fs : SjsonFields) :
    redactedOkF sf (maskFields sf fs) :=
  (redactedOk_main sf (sizeOf fs)).2.1 fs (le_refl _)

mutual
/-- Modelled from the claim's wording: the output mapping has the same
keys; the value of every key whose lowercased name contains a configured
sensitive-field substring is the redaction marker; otherwise nested
mappings (also as array elements) are related recursively and scalars are
unchanged.  The claim is silent about arrays directly inside arrays, so
such elements are unconstrained. -/
def claimMaskedF (sf : List String) : SjsonFields → SjsonFields → Prop
  | .nil, .nil => True
  | .cons k v t, .cons k2 v2 t2 =>
      k2 = k ∧
        (if isSensitiveKey sf k = true then v2 = .str "[REDACTED]"
          else claimMaskedV sf v v2) ∧
        claimMaskedF sf t t2
  | .nil, .cons _ _ _ => False
  | .cons _ _ _, .nil => False
def claimMaskedV (sf : List String) : Sjson → Sjson → Prop
  | .obj f, .obj f2 => claimMaskedF sf f f2
  | .obj _, _ => False
  | .arr its, .arr its2 => claimMaskedI sf its its2
  | .arr _, _ => False
  | v, v2 => v2 = v
def claimMaskedI (sf : List String) : SjsonItems → SjsonItems → Prop
  | .nil, .nil => True
  | .cons h t, .cons h2 t2 =>
      (match h, h2 with
        | .obj f, .obj f2 => claimMaskedF sf f f2
        | .obj _, _ => False
        | .arr _, _ => True
        | v, v2 => v2 = v) ∧
        claimMaskedI sf t t2
  | .nil, .cons _ _ => False
  | .cons _ _, .nil => False
end

/-- The two refinement invariants relating the claim's wording to the mask
functions, proved together by strong induction on size. -/
theorem claimMasked_main (sf : List String) (n : Nat) :
    (∀ fs : SjsonFields, sizeOf fs ≤ n →
        claimMaskedF sf fs (maskFields sf fs)) ∧
      (∀ its : SjsonItems, sizeOf its ≤ n →
        claimMaskedI sf its (maskArrayItems sf its)) := by
  induction n using Nat.strong_induction_on with
  | _ n ih =>
  refine ⟨?_, ?_⟩
  · intro fs hfs
    cases fs with
    | nil => simp [maskFields, claimMaskedF]
    | cons k v t =>
        simp only [SjsonFields.cons.sizeOf_spec] at hfs
        simp only [maskFields, claimMaskedF]
        refine ⟨trivial, ?_, (ih (sizeOf t) (by omega)).1 t (le_refl _)⟩
        by_cases h : isSensitiveKey sf k = true
        · rw [if_pos h]
          cases v <;> simp [maskEntryValue, h]
        · rw [if_neg h]
          cases v with
          | obj f =>
              simp only [Sjson.obj.sizeOf_spec] at hfs
              simp only [maskEntryValue]
              rw [if_neg h]
              simp only [claimMaskedV]
              exact (ih (sizeOf f) (by omega)).1 f (le_refl _)
          | arr its =>
              simp only [Sjson.arr.sizeOf_spec] at hfs
              simp only [maskEntryValue]
              rw [if_neg h]
              simp only [claimMaskedV]
              exact (ih (sizeOf its) (by omega)).2 its (le_refl _)
          | str s =>
              simp only [maskEntryValue]
              rw [if_neg h]
              simp only [claimMaskedV]
          | num m =>
              simp only [maskEntryValue]
              rw [if_neg h]
              simp only [claimMaskedV]
          | boolean b =>
              simp only [maskEntryValue]
              rw [if_neg h]
              simp only [claimMaskedV]
          | null =>
              simp only [maskEntryValue]
              rw [if_neg h]
              simp only [claimMaskedV]
  · intro its hits
    cases its with
    | nil => simp [maskArrayItems, claimMaskedI]
    | cons h t =>
        simp only [SjsonItems.cons.sizeOf_spec] at hits
        cases h with
        | obj f =>
            simp only [Sjson.obj.sizeOf_spec] at hits
            simp only [maskArrayItems, claimMaskedI]
            exact ⟨(ih (sizeOf f) (by omega)).1 f (le_refl _),
              (ih (sizeOf t) (by omega)).2 t (le_refl _)⟩
        | arr inner =>
            simp only [maskArrayItems, claimMaskedI]
            exact ⟨trivial, (ih (sizeOf t) (by omega)).2 t (le_refl _)⟩
        | str s =>
            simp only [maskArrayItems, claimMaskedI]
            exact ⟨trivial, (ih (sizeOf t) (by omega)).2 t (le_refl _)⟩
        | num m =>
            simp only [maskArrayItems, claimMaskedI]
            exact ⟨trivial, (ih (sizeOf t) (by omega)).2 t (le_refl _)⟩
        | boolean b =>
            simp only [maskArrayItems, claimMaskedI]
            exact ⟨trivial, (ih (sizeOf t) (by omega)).2 t (le_refl _)⟩
        | null =>
            simp only [maskArrayItems, claimMaskedI]
            exact ⟨trivial, (ih (sizeOf t) (by omega)).2 t (le_refl _)⟩

theorem claimMasked_maskFields (sf : List String) (fs : SjsonFields) :
    claimMaskedF sf fs (maskFields sf fs) :=
  (claimMasked_main sf (sizeOf fs)).1 fs (le_refl _)

/-- The metadata mapping of the claim's scenario. -/
def c4ScenarioInput : SjsonFields :=
  .cons "password" (.str "secret")
    (.cons "user" (.obj (.cons "token" (.str "abc") .nil)) .nil)

/-- C4: `maskSensitiveData` replaces the value of every key whose
lowercased name contains a configured sensitive-field substring, at any
nesting depth including mappings inside arrays, with `"[REDACTED]"`, and
leaves non-matching scalar values unchanged (keys preserved, mappings
related recursively); in particular the claim's scenario holds:
`\x7bpassword: "secret", user: \x7btoken: "abc"\x7d\x7d` with sensitive
fields `["password","token"]` masks to `\x7bpassword: "[REDACTED]", user:
\x7btoken: "[REDACTED]"\x7d\x7d`. -/
theorem c4_mask_redacts_and_preserves :
    maskSensitiveData ["password", "token"] c4ScenarioInput =
      .cons "password" (.str "[REDACTED]")
        (.cons "user" (.obj (.cons "token" (.str "[REDACTED]") .nil))
          .nil) ∧
    (∀ (sf : List String) (data : SjsonFields),
        redactedOkF sf (maskSensitiveData sf data)) ∧
    (∀ (sf : List String) (data : SjsonFields),
        claimMaskedF sf data (maskSensitiveData sf data)) :=
  ⟨rfl, fun sf data => redactedOk_maskFields sf data,
    fun sf data => claimMasked_maskFields sf data⟩

/-! ## C5 — interceptor idempotence

The RabbitMQ interceptor guards its monkey-patch with the module-level
`isPatched` flag and the `originalSend` save slot; the patched `send`
always invokes the saved original.  The Socket.IO interceptor registers a
fresh `connection` callback on every `initSocketIOInterceptor` call, and
each callback re-wraps the connected socket's `on` method around whatever
`on` currently is, so handlers registered through the chain are wrapped
once per layer.
-/

/-- A `send` implementation: the pristine `proto.send`, or the traced
publish wrapper closed over a saved implementation (the wrapper invokes
`originalSend!`, i.e. its saved implementation, and emits one publish span
and one metric record per call). -/
inductive SendImpl where
  | original
  | traced (saved : SendImpl)
  deriving DecidableEq

/-- The module-level patch state of the RabbitMQ interceptor: the
one-time-apply flag, the save slot, and the current `proto.send`. -/
structure RabbitPatchState where
  isPatched : Bool
  originalSend : Option SendImpl
  protoSend : SendImpl
  deriving DecidableEq

def rabbitInitialState : RabbitPatchState :=
  { isPatched := false, originalSend := none, protoSend := .original }

/-- `patchRabbitMQ`: behind the `proto.send && !originalSend` guard, save
`proto.send` and replace it with the traced wrapper; always set the
patched flag (the modelled class always has a `send`). -/
def patchRabbitMQ (s : RabbitPatchState) : RabbitPatchState :=
  match s.originalSend with
  | none =>
      { isPatched := true, originalSend := some s.protoSend,
        protoSend := .traced s.protoSend }
  | some _ => { s with isPatched := true }

/-- `initRabbitMQInterceptor` (lines 352–368): a no-op when already
patched. -/
def initRabbitMQInterceptor (s : RabbitPatchState) : RabbitPatchState :=
  if s.isPatched then s else patchRabbitMQ s

/-- Spans (equivalently, publish metric records) produced by one `send`
call through the implementation chain. -/
def sendSpanCount : SendImpl → Nat
  | .original => 0
  | .traced saved => 1 + sendSpanCount saved

/-- A socket's event-registration function: the library's own
`socket.on`, or a `wrapSocket` layer closed over the previous one. -/
inductive RegFn where
  | base
  | layered (inner : RegFn)
  deriving DecidableEq

/-- `wrapSocket` replaces `socket.on` with a wrapper around the previous
`socket.on`. -/
def wrapSocket (onFn : RegFn) : RegFn := .layered onFn

/-- `initSocketIOInterceptor` (lines 55–68) registers one more
`connection` callback; the state is the number of registered callbacks. -/
def initSocketIOInterceptor (connectionCallbacks : Nat) : Nat :=
  connectionCallbacks + 1

/-- On a new connection every registered callback runs `wrapSocket` once,
each layering over the previous `socket.on`. -/
def socketOnAfterConnection : Nat → RegFn
  | 0 => .base
  | n + 1 => wrapSocket (socketOnAfterConnection n)

/-- JS `s.startsWith(pre)`. -/
def jsStartsWith (s pre : String) : Bool :=
  List.isPrefixOf pre.data s.data

/-- The reserved events that `wrapSocket` leaves unwrapped. -/
def reservedEvent (e : String) : Bool :=
  jsStartsWith e "$" || e = "disconnect" || e = "error"

/-- How many traced layers wrap a handler registered for event `e`
through the chain; each layer's wrapped handler emits exactly one span
and one ws-event metric record per fire. -/
def handlerWrapCount : RegFn → String → Nat
  | .base, _ => 0
  | .layered inner, e =>
      if reservedEvent e then handlerWrapCount inner e
      else 1 + handlerWrapCount inner e

/-- C5: the claim is false for the Socket.IO interceptor — initializing it
twice registers two `connection` callbacks, a newly connected socket gets
double-wrapped, and a `message` handler fired once produces two spans and
two metric records instead of one. -/
theorem c5_counterexample :
    handlerWrapCount
        (socketOnAfterConnection
          (initSocketIOInterceptor (initSocketIOInterceptor 0)))
        "message" = 2 := by
  decide

/-- C5 (amended): re-initializing the RabbitMQ interceptor is a no-op (a
publish after any number of initializations produces exactly one span and
one metric record), but the Socket.IO interceptor is not idempotent: after
`n` initializations a non-reserved handler fired once produces exactly `n`
spans and `n` metric records. -/
theorem c5_amended_idempotence :
    (∀ s : RabbitPatchState,
        initRabbitMQInterceptor (initRabbitMQInterceptor s) =
          initRabbitMQInterceptor s) ∧
      sendSpanCount (initRabbitMQInterceptor rabbitInitialState).protoSend =
        1 ∧
      ∀ (n : Nat) (e : String), reservedEvent e = false →
        handlerWrapCount (socketOnAfterConnection n) e = n := by
  refine ⟨?_, by decide, ?_⟩
  · intro s
    by_cases h : s.isPatched = true
    · simp [initRabbitMQInterceptor, h]
    · cases ho : s.originalSend with
      | none => simp [initRabbitMQInterceptor, patchRabbitMQ, h, ho]
      | some impl => simp [initRabbitMQInterceptor, patchRabbitMQ, h, ho]
  · intro n e he
    induction n with
    | zero => rfl
    | succ m ih =>
        simp [socketOnAfterConnection, wrapSocket, handlerWrapCount, he, ih]
        omega

/-- C5 amended witness: the socket part of the amended claim at two
initializations of the `message` event. -/
theorem c5_amended_witness :
    reservedEvent "message" = false ∧
      handlerWrapCount (socketOnAfterConnection 2) "message" = 2 :=
  ⟨by decide,
    c5_amended_idempotence.2.2 2 "message" (by decide)⟩

/-! ## C6 — carrier round-trip through the traceparent format

`injectRabbitMQContext` and `extractRabbitMQContext` delegate to the
OpenTelemetry W3C propagator, an external collaborator.  The carrier
format is modelled from the spec (§6): `traceparent` is
`version-traceId-spanId-flags`, hyphen-joined lowercase hex with widths
2/32/16/2, version `00`; extraction of an all-zero trace or span id yields
no parent.
-/

structure TraceContext where
  traceId : Nat
  spanId : Nat
  traceFlags : Nat
  deriving DecidableEq

def hexDigitChar : Nat → Char
  | 0 => '0' | 1 => '1' | 2 => '2' | 3 => '3'
  | 4 => '4' | 5 => '5' | 6 => '6' | 7 => '7'
  | 8 => '8' | 9 => '9' | 10 => 'a' | 11 => 'b'
  | 12 => 'c' | 13 => 'd' | 14 => 'e' | 15 => 'f'
  | _ => 'x'

def hexVal (c : Char) : Option Nat :=
  if '0' ≤ c ∧ c ≤ '9' then some (c.toNat - '0'.toNat)
  else if 'a' ≤ c ∧ c ≤ 'f' then some (c.toNat - 'a'.toNat + 10)
  else if 'A' ≤ c ∧ c ≤ 'F' then some (c.toNat - 'A'.toNat + 10)
  else none

/-- Fixed-width hex rendering, most significant digit first. -/
def encodeHex : Nat → Nat → List Char
  | 0, _ => []
  | w + 1, n => hexDigitChar (n / 16 ^ w) :: encodeHex w (n % 16 ^ w)

/-- Read exactly `w` hex digits, accumulating most-significant-first. -/
def readHexAux : Nat → Nat → List Char → Option (Nat × List Char)
  | acc, 0, l => some (acc, l)
  | _, _ + 1, [] => none
  | acc, w + 1, c :: l =>
      match hexVal c with
      | some d => readHexAux (acc * 16 + d) w l
      | none => none

theorem hexVal_hexDigitChar (d : Nat) (hd : d < 16) :
    hexVal (hexDigitChar d) = some d := by
  interval_cases d <;> rfl

theorem readHexAux_encodeHex (w acc n : Nat) (rest : List Char)
    (hn : n < 16 ^ w) :
    readHexAux acc w (encodeHex w n ++ rest) =
      some (acc * 16 ^ w + n, rest) := by
  induction w generalizing acc n with
  | zero =>
      have h0 : n = 0 := Nat.lt_one_iff.mp hn
      subst h0
      simp [encodeHex, readHexAux]
  | succ w ih =>
      have hA : 0 < 16 ^ w := Nat.pos_pow_of_pos w (by omega)
      have hdiv : n / 16 ^ w < 16 := by
        rw [Nat.div_lt_iff_lt_mul hA]
        calc n < 16 ^ (w + 1) := hn
          _ = 16 * 16 ^ w := by ring
      have hmod : n % 16 ^ w < 16 ^ w := Nat.mod_lt _ hA
      simp only [encodeHex, List.cons_append, readHexAux,
        hexVal_hexDigitChar (n / 16 ^ w) hdiv, List.append_eq]
      rw [ih (acc * 16 + n / 16 ^ w) (n % 16 ^ w) hmod]
      have hA2 := Nat.div_add_mod n (16 ^ w)
      have harith : (acc * 16 + n / 16 ^ w) * 16 ^ w + n % 16 ^ w =
          acc * 16 ^ (w + 1) + n := by
        calc (acc * 16 + n / 16 ^ w) * 16 ^ w + n % 16 ^ w
            = acc * 16 ^ (w + 1) +
                (16 ^ w * (n / 16 ^ w) + n % 16 ^ w) := by ring
          _ = acc * 16 ^ (w + 1) + n := by rw [hA2]
      rw [harith]

/-- Modelled from the spec: the W3C-style `traceparent` value written by
the propagator on inject — `00-` traceId (32 hex) `-` spanId (16 hex) `-`
flags (2 hex). -/
def composeTraceparent (ctx : TraceContext) : String :=
  String.mk ('0' :: '0' :: '-' ::
    (encodeHex 32 ctx.traceId ++ '-' ::
      (encodeHex 16 ctx.spanId ++ '-' :: encodeHex 2 ctx.traceFlags)))

/-- `injectRabbitMQContext` (rabbitmq interceptor, lines 581–587): copy
the caller's headers and let the propagator add the `traceparent` key for
the active context. -/
def injectRabbitMQContext (ctx : TraceContext) (headers : Record) :
    Record :=
  rset headers "traceparent" (composeTraceparent ctx)

/-- Modelled from the spec: parsing a `traceparent` value — version `00`,
fixed-width hex fields, hyphen separators, an all-zero trace or span id is
rejected. -/
def parseTraceparent (s : String) : Option (Nat × Nat × Nat) :=
  match s.data with
  | '0' :: '0' :: '-' :: rest =>
      match readHexAux 0 32 rest with
      | some (t, '-' :: rest2) =>
          match readHexAux 0 16 rest2 with
          | some (sp, '-' :: rest3) =>
              match readHexAux 0 2 rest3 with
              | some (f, []) =>
                  if t = 0 ∨ sp = 0 then none else some (t, sp, f)
              | _ => none
          | _ => none
      | _ => none
  | _ => none

/-- `extractRabbitMQContext` (lines 602–606) through the spec-modelled
propagator: the parent context extracted from the headers, `none` being
the fresh root context. -/
def extractRabbitMQContext (headers : Record) : Option (Nat × Nat) :=
  match rget headers "traceparent" with
  | some s =>
      match parseTraceparent s with
      | some (t, sp, _) => some (t, sp)
      | none => none
  | none => none

theorem data_mk (l : List Char) : (String.mk l).data = l := rfl

/-- C6: for every valid trace context (nonzero ids within the 128/64-bit
ranges, 8-bit flags), injecting into a fresh carrier and extracting the
carrier reproduces the same traceId and spanId. -/
theorem c6_inject_extract_roundtrip (ctx : TraceContext)
    (ht1 : 0 < ctx.traceId) (ht2 : ctx.traceId < 16 ^ 32)
    (hs1 : 0 < ctx.spanId) (hs2 : ctx.spanId < 16 ^ 16)
    (hf : ctx.traceFlags < 16 ^ 2) :
    extractRabbitMQContext (injectRabbitMQContext ctx []) =
      some (ctx.traceId, ctx.spanId) := by
  have e1 := readHexAux_encodeHex 32 0 ctx.traceId
    ('-' :: (encodeHex 16 ctx.spanId ++ '-' :: encodeHex 2 ctx.traceFlags))
    ht2
  have e2 := readHexAux_encodeHex 16 0 ctx.spanId
    ('-' :: encodeHex 2 ctx.traceFlags) hs2
  have e3 := readHexAux_encodeHex 2 0 ctx.traceFlags [] hf
  simp only [zero_mul, zero_add, List.append_nil] at e1 e2 e3
  have hne : ¬ (ctx.traceId = 0 ∨ ctx.spanId = 0) := by omega
  simp [extractRabbitMQContext, injectRabbitMQContext, rset, rget,
    parseTraceparent, composeTraceparent, data_mk, e1, e2, e3, hne]

/-- C6 witness: the round trip at a concrete valid context. -/
theorem c6_roundtrip_witness :
    extractRabbitMQContext
        (injectRabbitMQContext
          { traceId := 300, spanId := 7, traceFlags := 1 } []) =
      some (300, 7) :=
  c6_inject_extract_roundtrip
    { traceId := 300, spanId := 7, traceFlags := 1 }
    (by norm_num) (by norm_num) (by norm_num) (by norm_num) (by norm_num)

/-! ## C7 — fallback route normalization

`getRoute` (http-metrics.ts, lines 56–74): prefer the framework's matched
route template; otherwise normalize the raw path with
`path.replace(uuidRegex, ':id').replace(slashDigitsRegex, '/:id')` where
`uuidRegex` is the case-insensitive 8-4-4-4-12 hex pattern and
`slashDigitsRegex` is `/\/\d+/g`.  The two global-replace passes are
embedded as left-to-right scanners (fuel-indexed by the input length; the
`baseUrl` branch of the source is unreachable, since it requires
`req.route?.path`, on which the first branch already returned). -/

def isHexDig (c : Char) : Bool := (hexVal c).isSome

/-- Consume exactly `n` hex digits. -/
def takeHexN : Nat → List Char → Option (List Char)
  | 0, l => some l
  | _ + 1, [] => none
  | n + 1, c :: l => if isHexDig c then takeHexN n l else none

def expectDash : List Char → Option (List Char)
  | c :: l => if c = '-' then some l else none
  | [] => none

/-- Try to match the UUID pattern `[0-9a-f]\x7b8\x7d-[0-9a-f]\x7b4\x7d-
[0-9a-f]\x7b4\x7d-[0-9a-f]\x7b4\x7d-[0-9a-f]\x7b12\x7d` (case-insensitive)
at the head of the list, returning the remainder on success. -/
def matchUuid (l : List Char) : Option (List Char) :=
  (((((((( takeHexN 8 l).bind expectDash).bind
    (takeHexN 4)).bind expectDash).bind
    (takeHexN 4)).bind expectDash).bind
    (takeHexN 4)).bind expectDash).bind (takeHexN 12)

/-- The first `replace`: scan left to right, substituting `:id` for every
(leftmost, non-overlapping) UUID-shaped substring. -/
def replaceUuidAux : Nat → List Char → List Char
  | 0, l => l
  | _ + 1, [] => []
  | fuel + 1, c :: rest =>
      match matchUuid (c :: rest) with
      | some rem => ':' :: 'i' :: 'd' :: replaceUuidAux fuel rem
      | none => c :: replaceUuidAux fuel rest

def replaceUuid (l : List Char) : List Char := replaceUuidAux l.length l

/-- The second `replace`: substitute `/:id` for every `/` followed by a
maximal nonempty run of decimal digits. -/
def replaceNumAux : Nat → List Char → List Char
  | 0, l => l
  | _ + 1, [] => []
  | fuel + 1, c :: rest =>
      if c = '/' then
        match rest with
        | d :: _ =>
            if d.isDigit then
              '/' :: ':' :: 'i' :: 'd' ::
                replaceNumAux fuel (rest.dropWhile Char.isDigit)
            else '/' :: replaceNumAux fuel rest
        | [] => '/' :: replaceNumAux fuel []
      else c :: replaceNumAux fuel rest

def replaceNum (l : List Char) : List Char := replaceNumAux l.length l

/-- `getRoute`: the Express route template when matched, else the
normalized raw path. -/
def getRoute (routePath : Option String) (path : String) : String :=
  match routePath with
  | some p => p
  | none => String.mk (replaceNum (replaceUuid path.data))

/-- A purely numeric path segment. -/
def isDigitSeg (seg : List Char) : Bool :=
  !seg.isEmpty && seg.all Char.isDigit

/-- A UUID-shaped path segment: the UUID pattern consumes it exactly. -/
def isUuidSeg (seg : List Char) : Bool := decide (matchUuid seg = some [])

/-- Modelled from the claim's wording: the raw path with every UUID-shaped
segment and every purely numeric segment replaced by the placeholder, and
only such segments changed. -/
def claimC7Route (path : String) : String :=
  String.mk (List.intercalate ['/']
    ((path.data.splitOn '/').map fun seg =>
      if isUuidSeg seg || isDigitSeg seg then [':', 'i', 'd'] else seg))

theorem takeHexN_split (n : Nat) (l r : List Char)
    (h : takeHexN n l = some r) :
    ∃ pre, l = pre ++ r ∧ pre.length = n ∧
      ∀ c ∈ pre, isHexDig c = true := by
  induction n generalizing l with
  | zero =>
      simp only [takeHexN, Option.some_inj] at h
      exact ⟨[], by simp [h], rfl, by simp⟩
  | succ n ih =>
      cases l with
      | nil => simp [takeHexN] at h
      | cons c l =>
          simp only [takeHexN] at h
          by_cases hc : isHexDig c = true
          · rw [if_pos hc] at h
            obtain ⟨pre, heq, hlen, hhex⟩ := ih l h
            exact ⟨c :: pre, by simp [heq], by simp [hlen],
              by simpa [hc] using hhex⟩
          · rw [if_neg hc] at h
            exact absurd h (by simp)

theorem takeHexN_append (n : Nat) (pre : List Char)
    (hlen : pre.length = n) (hhex : ∀ c ∈ pre, isHexDig c = true) :
    ∀ x : List Char, takeHexN n (pre ++ x) = some x := by
  induction pre generalizing n with
  | nil =>
      simp at hlen
      subst hlen
      simp [takeHexN]
  | cons c pre ih =>
      intro x
      simp only [List.length_cons] at hlen
      subst hlen
      have hc : isHexDig c = true := hhex c (by simp)
      simp only [List.cons_append, takeHexN, if_pos hc]
      exact ih _ rfl (fun d hd => hhex d (by simp [hd])) x

theorem matchUuid_some (l rem : List Char) (h : matchUuid l = some rem) :
    ∃ a b c d e,
      l = a ++ '-' :: (b ++ '-' :: (c ++ '-' :: (d ++ '-' :: (e ++ rem)))) ∧
        a.length = 8 ∧ b.length = 4 ∧ c.length = 4 ∧ d.length = 4 ∧
        e.length = 12 ∧
        (∀ x ∈ a, isHexDig x = true) ∧ (∀ x ∈ b, isHexDig x = true) ∧
        (∀ x ∈ c, isHexDig x = true) ∧ (∀ x ∈ d, isHexDig x = true) ∧
        (∀ x ∈ e, isHexDig x = true) := by
  unfold matchUuid at h
  cases h1 : takeHexN 8 l with
  | none => simp [h1] at h
  | some r1 =>
  rw [h1] at h
  cases hr1 : r1 with
  | nil => simp [hr1, expectDash] at h
  | cons c1 r1t =>
  rw [hr1] at h
  by_cases hc1 : c1 = '-'
  all_goals simp only [Option.bind, expectDash, hc1, if_pos, if_neg,
    if_true, if_false] at h
  case neg => simp [hc1] at h
  cases h2 : takeHexN 4 r1t with
  | none => simp [h2] at h
  | some r2 =>
  rw [h2] at h
  cases hr2 : r2 with
  | nil => simp [hr2, expectDash] at h
  | cons c2 r2t =>
  rw [hr2] at h
  by_cases hc2 : c2 = '-'
  case neg => simp [expectDash, hc2] at h
  simp only [expectDash, hc2, if_true, if_pos rfl] at h
  cases h3 : takeHexN 4 r2t with
  | none => simp [h3] at h
  | some r3 =>
  rw [h3] at h
  cases hr3 : r3 with
  | nil => simp [hr3, expectDash] at h
  | cons c3 r3t =>
  rw [hr3] at h
  by_cases hc3 : c3 = '-'
  case neg => simp [expectDash, hc3] at h
  simp only [expectDash, hc3, if_true, if_pos rfl] at h
  cases h4 : takeHexN 4 r3t with
  | none => simp [h4] at h
  | some r4 =>
  rw [h4] at h
  cases hr4 : r4 with
  | nil => simp [hr4, expectDash] at h
  | cons c4 r4t =>
  rw [hr4] at h
  by_cases hc4 : c4 = '-'
  case neg => simp [expectDash, hc4] at h
  simp only [expectDash, hc4, if_true, if_pos rfl] at h
  obtain ⟨a, hla, halen, hahex⟩ := takeHexN_split 8 l r1 h1
  obtain ⟨b, hlb, hblen, hbhex⟩ := takeHexN_split 4 r1t r2 h2
  obtain ⟨c, hlc, hclen, hchex⟩ := takeHexN_split 4 r2t r3 h3
  obtain ⟨d, hld, hdlen, hdhex⟩ := takeHexN_split 4 r3t r4 h4
  obtain ⟨e, hle, helen, hehex⟩ := takeHexN_split 12 r4t rem h
  subst hc1 hc2 hc3 hc4
  refine ⟨a, b, c, d, e, ?_, halen, hblen, hclen, hdlen, helen,
    hahex, hbhex, hchex, hdhex, hehex⟩
  rw [hla, hr1, hlb, hr2, hlc, hr3, hld, hr4, hle]

theorem matchUuid_build (a b c d e x : List Char)
    (ha : a.length = 8) (hb : b.length = 4) (hc : c.length = 4)
    (hd : d.length = 4) (he : e.length = 12)
    (hha : ∀ y ∈ a, isHexDig y = true) (hhb : ∀ y ∈ b, isHexDig y = true)
    (hhc : ∀ y ∈ c, isHexDig y = true) (hhd : ∀ y ∈ d, isHexDig y = true)
    (hhe : ∀ y ∈ e, isHexDig y = true) :
    matchUuid
        (a ++ '-' :: (b ++ '-' :: (c ++ '-' :: (d ++ '-' :: (e ++ x))))) =
      some x := by
  unfold matchUuid
  simp [takeHexN_append 8 a ha hha, takeHexN_append 4 b hb hhb,
    takeHexN_append 4 c hc hhc, takeHexN_append 4 d hd hhd,
    takeHexN_append 12 e he hhe, expectDash]

theorem matchUuid_some_length (l rem : List Char)
    (h : matchUuid l = some rem) : rem.length + 36 = l.length := by
  obtain ⟨a, b, c, d, e, heq, ha, hb, hc, hd, he, -⟩ := matchUuid_some l rem h
  subst heq
  simp [List.length_append, ha, hb, hc, hd, he]
  omega

theorem matchUuid_not_hex (c : Char) (l : List Char)
    (h : isHexDig c = false) : matchUuid (c :: l) = none := by
  simp [matchUuid, takeHexN, h]

/-- A UUID match needs its first hyphen at offset 8 with hex digits before
it, which no segment without hyphens followed by a slash (or nothing) can
supply. -/
theorem matchUuid_none_of_plain (s rest : List Char) (hne : s ≠ [])
    (hnd : ('-' : Char) ∉ s)
    (hrest : rest = [] ∨ ∃ r, rest = '/' :: r) :
    matchUuid (s ++ rest) = none := by
  cases hm : matchUuid (s ++ rest) with
  | none => rfl
  | some rem =>
      exfalso
      obtain ⟨a, b, c, d, e, heq, ha, -, -, -, -, hha, -⟩ :=
        matchUuid_some _ _ hm
      by_cases hlen : 8 < s.length
      · have hd : (a ++ '-' :: (b ++ '-' :: (c ++ '-' ::
            (d ++ '-' :: (e ++ rem))))).drop 8 =
            '-' :: (b ++ '-' :: (c ++ '-' :: (d ++ '-' :: (e ++ rem)))) := by
          rw [show (8 : Nat) = a.length from ha.symm]
          exact List.drop_left a _
        have h0 : (s ++ rest).drop 8 = s.drop 8 ++ rest := by
          rw [List.drop_append_eq_append_drop,
            Nat.sub_eq_zero_of_le (by omega), List.drop_zero]
        have hs8 : s.drop 8 ++ rest =
            '-' :: (b ++ '-' :: (c ++ '-' :: (d ++ '-' :: (e ++ rem)))) := by
          rw [← h0, heq, hd]
        cases hsd : s.drop 8 with
        | nil =>
            have := congrArg List.length hsd
            simp at this
            omega
        | cons x xs =>
            rw [hsd, List.cons_append] at hs8
            injection hs8 with hx _
            exact hnd (List.drop_subset 8 s
              (hsd ▸ (hx ▸ List.mem_cons_self x xs)))
      · have hle : s.length ≤ 8 := by omega
        have h0 : (s ++ rest).drop s.length = rest := List.drop_left s rest
        have h1 : (a ++ '-' :: (b ++ '-' :: (c ++ '-' ::
            (d ++ '-' :: (e ++ rem))))).drop s.length =
            a.drop s.length ++ '-' :: (b ++ '-' :: (c ++ '-' ::
              (d ++ '-' :: (e ++ rem)))) := by
          rw [List.drop_append_eq_append_drop,
            Nat.sub_eq_zero_of_le (by omega), List.drop_zero]
        have hd2 : rest = a.drop s.length ++ '-' :: (b ++ '-' ::
            (c ++ '-' :: (d ++ '-' :: (e ++ rem)))) := by
          rw [← h0, heq, h1]
        by_cases h8 : s.length = 8
        · rw [h8, show a.drop 8 = ([] : List Char) from by
            rw [show (8 : Nat) = a.length from ha.symm]
            exact List.drop_length a, List.nil_append] at hd2
          rcases hrest with hr | ⟨r, hr⟩
          · rw [hr] at hd2
            exact List.noConfusion hd2
          · rw [hr] at hd2
            injection hd2 with hx _
            exact absurd hx (by decide)
        · have hlen2 : 0 < (a.drop s.length).length := by
            rw [List.length_drop, ha]
            omega
          cases had : a.drop s.length with
          | nil =>
              rw [had] at hlen2
              simp at hlen2
          | cons x xs =>
              rw [had, List.cons_append] at hd2
              rcases hrest with hr | ⟨r, hr⟩
              · rw [hr] at hd2
                exact List.noConfusion hd2
              · rw [hr] at hd2
                injection hd2 with hx _
                have hmem : x ∈ a :=
                  List.drop_subset s.length a
                    (had ▸ List.mem_cons_self x xs)
                have hhx := hha x hmem
                rw [← hx] at hhx
                exact absurd hhx (by decide)

theorem replaceUuidAux_cons_some (f : Nat) (c : Char)
    (rest rem : List Char) (hm : matchUuid (c :: rest) = some rem) :
    replaceUuidAux (f + 1) (c :: rest) =
      ':' :: 'i' :: 'd' :: replaceUuidAux f rem :=
  congrArg
    (fun o => match o with
      | some r => ':' :: 'i' :: 'd' :: replaceUuidAux f r
      | none => c :: replaceUuidAux f rest) hm

theorem replaceUuidAux_cons_none (f : Nat) (c : Char)
    (rest : List Char) (hm : matchUuid (c :: rest) = none) :
    replaceUuidAux (f + 1) (c :: rest) = c :: replaceUuidAux f rest :=
  congrArg
    (fun o => match o with
      | some r => ':' :: 'i' :: 'd' :: replaceUuidAux f r
      | none => c :: replaceUuidAux f rest) hm

theorem replaceUuidAux_congr (f1 f2 : Nat) (l : List Char)
    (h1 : l.length ≤ f1) (h2 : l.length ≤ f2) :
    replaceUuidAux f1 l = replaceUuidAux f2 l := by
  induction f1 generalizing f2 l with
  | zero =>
      have : l = [] := List.length_eq_zero.mp (by omega)
      subst this
      cases f2 <;> rfl
  | succ f1 ih =>
      cases l with
      | nil => cases f2 <;> rfl
      | cons c rest =>
          cases f2 with
          | zero => simp at h2
          | succ f2 =>
              cases hm : matchUuid (c :: rest) with
              | some rem =>
                  have hl := matchUuid_some_length _ _ hm
                  simp only [List.length_cons] at h1 h2 hl
                  rw [replaceUuidAux_cons_some f1 c rest rem hm,
                    replaceUuidAux_cons_some f2 c rest rem hm,
                    ih f2 rem (by omega) (by omega)]
              | none =>
                  simp only [List.length_cons] at h1 h2
                  rw [replaceUuidAux_cons_none f1 c rest hm,
                    replaceUuidAux_cons_none f2 c rest hm,
                    ih f2 rest (by omega) (by omega)]

theorem replaceUuid_cons_some (c : Char) (rest rem : List Char)
    (hm : matchUuid (c :: rest) = some rem) :
    replaceUuid (c :: rest) = ':' :: 'i' :: 'd' :: replaceUuid rem := by
  unfold replaceUuid
  have hl := matchUuid_some_length _ _ hm
  simp only [List.length_cons] at hl
  simp only [List.length_cons]
  rw [replaceUuidAux_cons_some rest.length c rest rem hm,
    replaceUuidAux_congr rest.length rem.length rem (by omega) (le_refl _)]

theorem replaceUuid_cons_none (c : Char) (rest : List Char)
    (hm : matchUuid (c :: rest) = none) :
    replaceUuid (c :: rest) = c :: replaceUuid rest := by
  unfold replaceUuid
  simp only [List.length_cons]
  rw [replaceUuidAux_cons_none rest.length c rest hm]

theorem replaceUuid_plain_append (s rest : List Char)
    (hnd : ('-' : Char) ∉ s)
    (hrest : rest = [] ∨ ∃ r, rest = '/' :: r) :
    replaceUuid (s ++ rest) = s ++ replaceUuid rest := by
  induction s with
  | nil => simp
  | cons c s ih =>
      have hm : matchUuid ((c :: s) ++ rest) = none :=
        matchUuid_none_of_plain (c :: s) rest (by simp) hnd hrest
      rw [List.cons_append] at hm
      rw [List.cons_append, replaceUuid_cons_none c (s ++ rest) hm,
        ih fun hmem => hnd (List.mem_cons_of_mem c hmem),
        List.cons_append]

theorem isUuidSeg_eq (s : List Char) (hu : isUuidSeg s = true) :
    matchUuid s = some [] :=
  of_decide_eq_true hu

theorem replaceUuid_uuid_append (s rest : List Char)
    (hu : isUuidSeg s = true) :
    replaceUuid (s ++ rest) = ':' :: 'i' :: 'd' :: replaceUuid rest := by
  have hm0 := isUuidSeg_eq s hu
  obtain ⟨a, b, c, d, e, heq, ha, hb, hc, hd, he,
    hha, hhb, hhc, hhd, hhe⟩ := matchUuid_some s [] hm0
  have hm : matchUuid (s ++ rest) = some rest := by
    have hbuild := matchUuid_build a b c d e rest ha hb hc hd he
      hha hhb hhc hhd hhe
    rw [heq]
    rw [← hbuild]
    congr 1
    simp [List.append_assoc]
  cases hs : s with
  | nil =>
      rw [hs] at hm0
      simp [matchUuid, takeHexN] at hm0
  | cons c0 s0 =>
      rw [hs] at hm
      rw [List.cons_append] at hm
      rw [List.cons_append, replaceUuid_cons_some c0 (s0 ++ rest) rest hm]

theorem replaceNumAux_nil (f : Nat) : replaceNumAux f [] = [] := by
  cases f <;> rfl

theorem replaceNumAux_cons_other (f : Nat) (c : Char) (rest : List Char)
    (hc : ¬ c = '/') :
    replaceNumAux (f + 1) (c :: rest) = c :: replaceNumAux f rest := by
  simp only [replaceNumAux, if_neg hc]

theorem replaceNumAux_slash_digit (f : Nat) (d : Char) (rs : List Char)
    (hd : d.isDigit = true) :
    replaceNumAux (f + 1) ('/' :: d :: rs) =
      '/' :: ':' :: 'i' :: 'd' ::
        replaceNumAux f ((d :: rs).dropWhile Char.isDigit) := by
  simp [replaceNumAux, hd]

theorem replaceNumAux_slash_nondigit (f : Nat) (d : Char) (rs : List Char)
    (hd : d.isDigit = false) :
    replaceNumAux (f + 1) ('/' :: d :: rs) =
      '/' :: replaceNumAux f (d :: rs) := by
  simp [replaceNumAux, hd]

theorem replaceNumAux_slash_nil (f : Nat) :
    replaceNumAux (f + 1) ['/'] = '/' :: replaceNumAux f [] := by
  simp [replaceNumAux]

theorem replaceNumAux_congr (f1 f2 : Nat) (l : List Char)
    (h1 : l.length ≤ f1) (h2 : l.length ≤ f2) :
    replaceNumAux f1 l = replaceNumAux f2 l := by
  induction f1 generalizing f2 l with
  | zero =>
      have : l = [] := List.length_eq_zero.mp (by omega)
      subst this
      cases f2 <;> rfl
  | succ f1 ih =>
      cases l with
      | nil => cases f2 <;> rfl
      | cons c rest =>
          cases f2 with
          | zero => simp at h2
          | succ f2 =>
              simp only [List.length_cons] at h1 h2
              by_cases hc : c = '/'
              · subst hc
                cases rest with
                | nil =>
                    rw [replaceNumAux_slash_nil, replaceNumAux_slash_nil,
                      replaceNumAux_nil, replaceNumAux_nil]
                | cons d rs =>
                    cases hd : d.isDigit with
                    | true =>
                        have hdw : ((d :: rs).dropWhile
                              Char.isDigit).length ≤ (d :: rs).length :=
                          (List.dropWhile_sublist _).length_le
                        simp only [List.length_cons] at hdw h1 h2
                        rw [replaceNumAux_slash_digit f1 d rs hd,
                          replaceNumAux_slash_digit f2 d rs hd,
                          ih f2 _ (by omega) (by omega)]
                    | false =>
                        rw [replaceNumAux_slash_nondigit f1 d rs hd,
                          replaceNumAux_slash_nondigit f2 d rs hd,
                          ih f2 _ (by omega) (by omega)]
              · rw [replaceNumAux_cons_other f1 c rest hc,
                  replaceNumAux_cons_other f2 c rest hc,
                  ih f2 rest (by omega) (by omega)]

theorem replaceNum_cons_other (c : Char) (rest : List Char)
    (hc : ¬ c = '/') : replaceNum (c :: rest) = c :: replaceNum rest := by
  unfold replaceNum
  simp only [List.length_cons]
  rw [replaceNumAux_cons_other rest.length c rest hc]

theorem replaceNum_slash_digit (d : Char) (rs : List Char)
    (hd : d.isDigit = true) :
    replaceNum ('/' :: d :: rs) =
      '/' :: ':' :: 'i' :: 'd' ::
        replaceNum ((d :: rs).dropWhile Char.isDigit) := by
  unfold replaceNum
  simp only [List.length_cons]
  rw [replaceNumAux_slash_digit (rs.length + 1) d rs hd]
  have hdw : ((d :: rs).dropWhile Char.isDigit).length ≤
      (d :: rs).length := (List.dropWhile_sublist _).length_le
  simp only [List.length_cons] at hdw
  rw [replaceNumAux_congr (rs.length + 1)
    ((d :: rs).dropWhile Char.isDigit).length
    ((d :: rs).dropWhile Char.isDigit) (by omega) (le_refl _)]

theorem replaceNum_slash_nondigit (d : Char) (rs : List Char)
    (hd : d.isDigit = false) :
    replaceNum ('/' :: d :: rs) = '/' :: replaceNum (d :: rs) := by
  unfold replaceNum
  simp only [List.length_cons]
  rw [replaceNumAux_slash_nondigit (rs.length + 1) d rs hd]

theorem replaceNum_noslash_append (s rest : List Char)
    (hns : ('/' : Char) ∉ s) :
    replaceNum (s ++ rest) = s ++ replaceNum rest := by
  induction s with
  | nil => simp
  | cons c s ih =>
      have hc : ¬ c = '/' := fun h => hns (h ▸ List.mem_cons_self c s)
      rw [List.cons_append,
        replaceNum_cons_other c (s ++ rest) hc,
        ih fun hmem => hns (List.mem_cons_of_mem c hmem),
        List.cons_append]

theorem dropWhile_digit_append (s jp : List Char)
    (hall : ∀ c ∈ s, c.isDigit = true)
    (hjp : jp = [] ∨ ∃ r, jp = '/' :: r) :
    (s ++ jp).dropWhile Char.isDigit = jp := by
  induction s with
  | nil =>
      rcases hjp with h | ⟨r, h⟩ <;> subst h <;>
        simp [List.dropWhile]
  | cons c s ih =>
      have hc := hall c (by simp)
      simp only [List.cons_append, List.dropWhile, hc]
      exact ih fun d hd => hall d (by simp [hd])

/-- A '/' -prefixed path assembled from slash-free segments. -/
def joinPath : List (List Char) → List Char
  | [] => []
  | s :: rest => '/' :: (s ++ joinPath rest)

theorem joinPath_shape (segs : List (List Char)) :
    joinPath segs = [] ∨ ∃ r, joinPath segs = '/' :: r := by
  cases segs with
  | nil => exact Or.inl rfl
  | cons s rest => exact Or.inr ⟨s ++ joinPath rest, rfl⟩

/-- A path segment the amended claim quantifies over: purely numeric,
UUID-shaped, or plain — nonempty with no hyphen, no slash, and no leading
digit. -/
def SegOk (s : List Char) : Prop :=
  isDigitSeg s = true ∨ isUuidSeg s = true ∨
    (s ≠ [] ∧ ('-' : Char) ∉ s ∧ ('/' : Char) ∉ s ∧
      ∀ c cs, s = c :: cs → c.isDigit = false)

theorem digitSeg_all (s : List Char) (h : isDigitSeg s = true) :
    s ≠ [] ∧ ∀ c ∈ s, c.isDigit = true := by
  simp only [isDigitSeg, Bool.and_eq_true, Bool.not_eq_true',
    List.all_eq_true] at h
  exact ⟨by simpa using List.isEmpty_eq_false.mp h.1, h.2⟩

theorem digitSeg_no_dash (s : List Char) (h : isDigitSeg s = true) :
    ('-' : Char) ∉ s := fun hmem =>
  absurd ((digitSeg_all s h).2 '-' hmem) (by decide)

theorem digitSeg_no_slash (s : List Char) (h : isDigitSeg s = true) :
    ('/' : Char) ∉ s := fun hmem =>
  absurd ((digitSeg_all s h).2 '/' hmem) (by decide)

theorem uuid_has_dash (s : List Char) (h : isUuidSeg s = true) :
    ('-' : Char) ∈ s := by
  obtain ⟨a, b, c, d, e, heq, -⟩ :=
    matchUuid_some s [] (isUuidSeg_eq s h)
  rw [heq]
  simp

theorem no_dash_not_uuid (s : List Char) (hnd : ('-' : Char) ∉ s) :
    isUuidSeg s = false := by
  cases hu : isUuidSeg s with
  | false => rfl
  | true => exact absurd (uuid_has_dash s hu) hnd

/-- What the first replace pass does to one well-formed segment. -/
def pass1Seg (s : List Char) : List Char :=
  if isUuidSeg s then [':', 'i', 'd'] else s

theorem replaceUuid_joinPath (segs : List (List Char))
    (hok : ∀ s ∈ segs, SegOk s) :
    replaceUuid (joinPath segs) = joinPath (segs.map pass1Seg) := by
  induction segs with
  | nil => rfl
  | cons s rest ih =>
      have hs := hok s (by simp)
      have hrest : ∀ t ∈ rest, SegOk t := fun t ht => hok t (by simp [ht])
      have hshape := joinPath_shape rest
      show replaceUuid ('/' :: (s ++ joinPath rest)) = _
      have hslash : matchUuid ('/' :: (s ++ joinPath rest)) = none :=
        matchUuid_not_hex '/' _ (by decide)
      rw [replaceUuid_cons_none _ _ hslash]
      rcases hs with hd | hu | hp
      · have hnd := digitSeg_no_dash s hd
        rw [replaceUuid_plain_append s (joinPath rest) hnd hshape,
          ih hrest]
        simp [joinPath, List.map_cons, pass1Seg, no_dash_not_uuid s hnd]
      · rw [replaceUuid_uuid_append s (joinPath rest) hu, ih hrest]
        simp [joinPath, List.map_cons, pass1Seg, hu]
      · rw [replaceUuid_plain_append s (joinPath rest) hp.2.1 hshape,
          ih hrest]
        simp [joinPath, List.map_cons, pass1Seg, no_dash_not_uuid s hp.2.1]

/-- What the second replace pass does to one segment of the
first pass's output. -/
def pass2Seg (s : List Char) : List Char :=
  if isDigitSeg s then [':', 'i', 'd'] else s

theorem replaceNum_joinPath (segs : List (List Char))
    (hok : ∀ s ∈ segs, s ≠ [] ∧ ('/' : Char) ∉ s ∧
      (isDigitSeg s = true ∨ ∀ c cs, s = c :: cs → c.isDigit = false)) :
    replaceNum (joinPath segs) = joinPath (segs.map pass2Seg) := by
  induction segs with
  | nil => rfl
  | cons s rest ih =>
      obtain ⟨hne, hns, halt⟩ := hok s (by simp)
      have hrest : ∀ t ∈ rest, _ := fun t ht => hok t (by simp [ht])
      have hshape := joinPath_shape rest
      show replaceNum ('/' :: (s ++ joinPath rest)) = _
      cases hds : isDigitSeg s with
      | true =>
          obtain ⟨-, hall⟩ := digitSeg_all s hds
          cases hsc : s with
          | nil => exact absurd hsc hne
          | cons d ds =>
              have hdd : d.isDigit = true := hall d (by simp [hsc])
              rw [List.cons_append, replaceNum_slash_digit d
                (ds ++ joinPath rest) hdd]
              have hdw : ((d :: ds) ++ joinPath rest).dropWhile
                  Char.isDigit = joinPath rest := by
                exact dropWhile_digit_append (d :: ds) (joinPath rest)
                  (fun c hc => hall c (hsc ▸ hc)) hshape
              rw [List.cons_append] at hdw
              rw [hdw, ih hrest]
              simp [joinPath, List.map_cons, pass2Seg, hsc ▸ hds]
      | false =>
          cases hsc : s with
          | nil => exact absurd hsc hne
          | cons c cs =>
              have hcd : c.isDigit = false := by
                rcases halt with hd2 | hplain
                · rw [hds] at hd2
                  exact absurd hd2 (by simp)
                · exact hplain c cs hsc
              rw [List.cons_append, replaceNum_slash_nondigit c
                (cs ++ joinPath rest) hcd]
              rw [← List.cons_append,
                replaceNum_noslash_append (c :: cs) (joinPath rest)
                  (hsc ▸ hns), ih hrest]
              simp [joinPath, List.map_cons, pass2Seg, hsc ▸ hds]

/-- The normalization of one segment the amended claim asserts. -/
def c7NormSeg (s : List Char) : List Char :=
  if isUuidSeg s || isDigitSeg s then [':', 'i', 'd'] else s

theorem pass1_ok (s : List Char) (h : SegOk s) :
    pass1Seg s ≠ [] ∧ ('/' : Char) ∉ pass1Seg s ∧
      (isDigitSeg (pass1Seg s) = true ∨
        ∀ c cs, pass1Seg s = c :: cs → c.isDigit = false) := by
  by_cases hu : isUuidSeg s = true
  · rw [show pass1Seg s = [':', 'i', 'd'] from by simp [pass1Seg, hu]]
    refine ⟨by decide, by decide, Or.inr ?_⟩
    intro c cs hc
    injection hc with h1 _
    rw [← h1]
    rfl
  · have hps : pass1Seg s = s := by simp [pass1Seg, hu]
    rw [hps]
    rcases h with hd | hu2 | hp
    · exact ⟨(digitSeg_all s hd).1, digitSeg_no_slash s hd, Or.inl hd⟩
    · exact absurd hu2 hu
    · exact ⟨hp.1, hp.2.2.1, Or.inr hp.2.2.2⟩

theorem pass2_pass1_eq_norm (s : List Char) (h : SegOk s) :
    pass2Seg (pass1Seg s) = c7NormSeg s := by
  rcases h with hd | hu | hp
  · have hu0 : isUuidSeg s = false :=
      no_dash_not_uuid s (digitSeg_no_dash s hd)
    simp [pass1Seg, pass2Seg, c7NormSeg, hu0, hd]
  · have hdid : isDigitSeg [':', 'i', 'd'] = false := by decide
    simp [pass1Seg, pass2Seg, c7NormSeg, hu, hdid]
  · have hu0 := no_dash_not_uuid s hp.2.1
    have hd0 : isDigitSeg s = false := by
      cases hsc : s with
      | nil => exact absurd hsc hp.1
      | cons c cs =>
          cases hd1 : isDigitSeg (c :: cs) with
          | false => rfl
          | true =>
              have hall := (digitSeg_all (c :: cs) hd1).2 c (by simp)
              rw [hp.2.2.2 c cs hsc] at hall
              exact absurd hall (by simp)
    simp [pass1Seg, pass2Seg, c7NormSeg, hu0, hd0]

/-- C7: the claim is false — the fallback route for `/users/12x` is
`/users/:idx`, not the unchanged `/users/12x` the claim's
"only UUID-shaped and purely numeric segments changed" reading yields,
because the `\/\d+` replacement also rewrites digit runs that are proper
prefixes of a segment. -/
theorem c7_counterexample :
    getRoute none "/users/12x" = "/users/:idx" ∧
      claimC7Route "/users/12x" = "/users/12x" ∧
      getRoute none "/users/12x" ≠ claimC7Route "/users/12x" := by
  refine ⟨by decide, by decide, ?_⟩
  decide

/-- C7 (amended): with no framework-matched route template the metric
route label is the raw path with every UUID-shaped substring replaced by
`:id` and then every slash-plus-digit-run replaced by `/:id`; on paths
whose segments are each purely numeric, UUID-shaped, or plain (no hyphen,
no leading digit) this replaces exactly the numeric and UUID segments by
`:id` and leaves the others unchanged, and the claim's scenario holds:
`/users/123e4567-e89b-12d3-a456-426614174000` normalizes to
`/users/:id`. -/
theorem c7_amended_route_normalization :
    getRoute none "/users/123e4567-e89b-12d3-a456-426614174000" =
        "/users/:id" ∧
      ∀ segs : List (List Char), (∀ s ∈ segs, SegOk s) →
        getRoute none (String.mk (joinPath segs)) =
          String.mk (joinPath (segs.map c7NormSeg)) := by
  refine ⟨by decide, ?_⟩
  intro segs hok
  simp only [getRoute, data_mk]
  rw [replaceUuid_joinPath segs hok,
    replaceNum_joinPath (segs.map pass1Seg) ?hok2, List.map_map]
  case hok2 =>
    intro t ht
    obtain ⟨s, hs, rfl⟩ := List.mem_map.mp ht
    exact pass1_ok s (hok s hs)
  congr 1
  congr 1
  exact List.map_congr_left fun s hs => pass2_pass1_eq_norm s (hok s hs)

/-- C7 amended witness: the amended normalization at the concrete path
`/users/42` (a plain segment and a numeric segment). -/
theorem c7_amended_witness :
    (∀ s ∈ [['u', 's', 'e', 'r', 's'], ['4', '2']], SegOk s) ∧
      getRoute none
          (String.mk (joinPath [['u', 's', 'e', 'r', 's'], ['4', '2']])) =
        String.mk
          (joinPath ([['u', 's', 'e', 'r', 's'], ['4', '2']].map
            c7NormSeg)) := by
  have hok : ∀ s ∈ [['u', 's', 'e', 'r', 's'], ['4', '2']], SegOk s := by
    intro s hs
    simp only [List.mem_cons, List.not_mem_nil, or_false] at hs
    rcases hs with h | h <;> subst h
    · refine Or.inr (Or.inr ⟨by decide, by decide, by decide, ?_⟩)
      intro c cs hc
      injection hc with h1 _
      rw [← h1]
      rfl
    · exact Or.inl (by decide)
  exact ⟨hok, c7_amended_route_normalization.2 _ hok⟩

/-! ## C8 — excluded paths record no metric

`httpMetricsMiddleware` and `shouldIgnore` (http-metrics.ts, lines 25–51
and 79–89).  The middleware is a function of the request and of the
response status observed at `finish`; its observable outcome is whether
`next` was called, the request object passed on, and the metric events
recorded on response finish.
-/

def ignoredPaths : List String :=
  ["/health", "/healthz", "/ready", "/metrics", "/favicon.ico"]

def shouldIgnore (path : String) : Bool :=
  ignoredPaths.any fun ignored => jsStartsWith path ignored

structure HttpRequest where
  method : String
  path : String
  routePath : Option String
  deriving DecidableEq

structure HttpMetricEvent where
  method : String
  route : String
  statusCode : Int
  deriving DecidableEq

structure MiddlewareOutcome where
  nextCalled : Bool
  forwardedReq : HttpRequest
  metricsOnFinish : List HttpMetricEvent
  deriving DecidableEq

def httpMetricsMiddleware (req : HttpRequest) (statusCode : Int) :
    MiddlewareOutcome :=
  if shouldIgnore req.path then
    { nextCalled := true, forwardedReq := req, metricsOnFinish := [] }
  else
    { nextCalled := true, forwardedReq := req,
      metricsOnFinish :=
        [{ method := req.method, route := getRoute req.routePath req.path,
           statusCode := statusCode }] }

/-- C8: every request whose path starts with one of the excluded prefixes
records no metric at all, and the request is passed through unchanged with
`next` called. -/
theorem c8_excluded_paths_no_metric (req : HttpRequest) (statusCode : Int)
    (h : ∃ pre ∈ ignoredPaths, jsStartsWith req.path pre = true) :
    httpMetricsMiddleware req statusCode =
      { nextCalled := true, forwardedReq := req, metricsOnFinish := [] } := by
  have hig : shouldIgnore req.path = true := by
    obtain ⟨pre, hmem, hpre⟩ := h
    simp only [shouldIgnore, List.any_eq_true]
    exact ⟨pre, hmem, hpre⟩
  simp [httpMetricsMiddleware, hig]

/-- C8 witness: a request to `/health/live`. -/
theorem c8_witness :
    httpMetricsMiddleware
        { method := "GET", path := "/health/live", routePath := none } 200 =
      { nextCalled := true,
        forwardedReq :=
          { method := "GET", path := "/health/live", routePath := none },
        metricsOnFinish := [] } :=
  c8_excluded_paths_no_metric
    { method := "GET", path := "/health/live", routePath := none } 200
    ⟨"/health", by decide, by decide⟩

/-! ## C10 — observability error middleware response

`observabilityErrorMiddleware` and `classifyError`
(error-handler.ts, lines 81–140 and 16–58).  An error object is modelled
by the fields the middleware reads: `message`, optional `name`, optional
numeric `status` (the response uses `error.status || 500`, so a present
but zero status is falsy), presence/truthiness of `isAxiosError`, and
presence of `code`/`clientVersion`.
-/

structure JsError where
  message : String
  name : Option String
  status : Option Int
  isAxiosErrorField : Option Bool
  hasCode : Bool
  hasClientVersion : Bool
  deriving DecidableEq

/-- `isAxiosError`: the field is present and truthy. -/
def isAxiosError (e : JsError) : Bool :=
  match e.isAxiosErrorField with
  | some b => b
  | none => false

/-- `isPrismaKnownRequestError`: `code` and `clientVersion` present, and
`name` equal to the Prisma class name. -/
def isPrismaKnownRequestError (e : JsError) : Bool :=
  e.hasCode && e.hasClientVersion &&
    (match e.name with
      | some n => n = "PrismaClientKnownRequestError"
      | none => false)

inductive ErrType where
  | axios
  | prismaKnown
  | generic
  deriving DecidableEq

def errTypeLabel : ErrType → String
  | .axios => "AxiosError"
  | .prismaKnown => "PrismaClientKnownRequestError"
  | .generic => "Error"

def classifyError (e : JsError) : ErrType :=
  if isAxiosError e then .axios
  else if isPrismaKnownRequestError e then .prismaKnown
  else .generic

structure ErrorResponse where
  status : Int
  bodyMessage : String
  bodyType : String
  deriving DecidableEq

/-- The response sent by `observabilityErrorMiddleware` (span, metric and
log side effects are not part of this claim): status from
`error.status || 500`, body `\x7berror: \x7bmessage, type\x7d\x7d`. -/
def observabilityErrorMiddleware (e : JsError) : ErrorResponse :=
  { status :=
      match e.status with
      | some s => if s ≠ 0 then s else 500
      | none => 500
    bodyMessage := e.message
    bodyType := errTypeLabel (classifyError e) }

/-- An error object that is simultaneously Axios-shaped (truthy
`isAxiosError`) and Prisma-shaped. -/
def c10BothShaped : JsError :=
  { message := "m", name := some "PrismaClientKnownRequestError",
    status := none, isAxiosErrorField := some true, hasCode := true,
    hasClientVersion := true }

/-- C10: the claim is false — for an error carrying both a truthy
`isAxiosError` field and the Prisma shape, the middleware classifies it
as `AxiosError` (the Axios check runs first), so the claim's "type is
PrismaClientKnownRequestError exactly when the error has code,
clientVersion and the Prisma name" fails. -/
theorem c10_counterexample :
    isPrismaKnownRequestError c10BothShaped = true ∧
      (observabilityErrorMiddleware c10BothShaped).bodyType =
        "AxiosError" ∧
      (observabilityErrorMiddleware c10BothShaped).bodyType ≠
        "PrismaClientKnownRequestError" := by
  refine ⟨by decide, by decide, by decide⟩

/-- C10 (amended): the middleware always sends a response whose body
message is the error's message; the status is the error's own status
when present and nonzero (`status || 500` treats 0 as falsy) and 500
otherwise; the type is `AxiosError` exactly when `isAxiosError` is
truthy, `PrismaClientKnownRequestError` exactly when the error is not
Axios-shaped but is Prisma-shaped, and `Error` exactly when it is
neither. -/
theorem c10_amended_error_response (e : JsError) :
    (observabilityErrorMiddleware e).bodyMessage = e.message ∧
      (∀ s : Int, e.status = some s → s ≠ 0 →
        (observabilityErrorMiddleware e).status = s) ∧
      (e.status = none → (observabilityErrorMiddleware e).status = 500) ∧
      (e.status = some 0 → (observabilityErrorMiddleware e).status = 500) ∧
      ((observabilityErrorMiddleware e).bodyType = "AxiosError" ↔
        isAxiosError e = true) ∧
      ((observabilityErrorMiddleware e).bodyType =
          "PrismaClientKnownRequestError" ↔
        isAxiosError e = false ∧ isPrismaKnownRequestError e = true) ∧
      ((observabilityErrorMiddleware e).bodyType = "Error" ↔
        isAxiosError e = false ∧ isPrismaKnownRequestError e = false) := by
  refine ⟨rfl, ?_, ?_, ?_, ?_, ?_, ?_⟩
  · intro s hs hne
    simp [observabilityErrorMiddleware, hs, hne]
  · intro hs
    simp [observabilityErrorMiddleware, hs]
  · intro hs
    simp [observabilityErrorMiddleware, hs]
  · cases ha : isAxiosError e <;>
      cases hp : isPrismaKnownRequestError e <;>
      simp [observabilityErrorMiddleware, classifyError, errTypeLabel,
        ha, hp]
  · cases ha : isAxiosError e <;>
      cases hp : isPrismaKnownRequestError e <;>
      simp [observabilityErrorMiddleware, classifyError, errTypeLabel,
        ha, hp]
  · cases ha : isAxiosError e <;>
      cases hp : isPrismaKnownRequestError e <;>
      simp [observabilityErrorMiddleware, classifyError, errTypeLabel,
        ha, hp]

/-- C10 amended witness: a plain error with status 404. -/
theorem c10_amended_witness :
    (observabilityErrorMiddleware
        { message := "not found", name := some "Error",
          status := some 404, isAxiosErrorField := none,
          hasCode := false, hasClientVersion := false }).status = 404 :=
  (c10_amended_error_response
    { message := "not found", name := some "Error", status := some 404,
      isAxiosErrorField := none, hasCode := false,
      hasClientVersion := false }).2.1 404 rfl (by decide)

/-! ## C9 — redaction never mutates its input

To make "never mutates the caller's object" expressible, the same
`maskSensitiveData` body (identical in `StructuredLogger` and
`WinstonOtelTransport`) is embedded over an explicit heap: objects and
arrays live in an allocation list, values are primitives or references,
and every JS object/array creation (`masked = \x7b\x7d`, `value.map`)
is an allocation appended at the end.  Recursion is fuel-indexed
(`none` = fuel exhausted; JS recursion on acyclic metadata always
terminates, and the claim is settled for every terminating run).
-/

inductive HVal where
  | vstr (s : String)
  | vnum (n : Int)
  | vbool (b : Bool)
  | vnull
  | vundef
  | ref (r : Nat)
  deriving DecidableEq

inductive HObj where
  | fields (entries : List (String × HVal))
  | items (elems : List HVal)
  deriving DecidableEq

abbrev Heap := List HObj

mutual
/-- The entry loop of `maskSensitiveData` over a record's
`Object.entries`; returns the entries of the freshly built `masked`
object and the heap after any nested allocations. -/
def maskEntriesH (sf : List String) :
    Nat → Heap → List (String × HVal) → Option (List (String × HVal) × Heap)
  | 0, _, _ => none
  | _ + 1, h, [] => some ([], h)
  | fuel + 1, h, (k, v) :: rest =>
      match maskValueH sf fuel h k v with
      | some (v2, h2) =>
          match maskEntriesH sf fuel h2 rest with
          | some (vs, h3) => some ((k, v2) :: vs, h3)
          | none => none
      | none => none
/-- One entry's value: redact on sensitive key; recurse into a referenced
non-array object; map over a referenced array (a fresh array is
allocated); primitives (including `null`/`undefined`) pass through. -/
def maskValueH (sf : List String) :
    Nat → Heap → String → HVal → Option (HVal × Heap)
  | 0, _, _, _ => none
  | fuel + 1, h, k, v =>
      if isSensitiveKey sf k then some (.vstr "[REDACTED]", h)
      else
        match v with
        | .ref r =>
            match h[r]? with
            | some (.fields entries) =>
                match maskEntriesH sf fuel h entries with
                | some (vs, h2) =>
                    some (.ref h2.length, h2 ++ [.fields vs])
                | none => none
            | some (.items elems) =>
                match maskItemsH sf fuel h elems with
                | some (vs, h2) =>
                    some (.ref h2.length, h2 ++ [.items vs])
                | none => none
            | none => none
        | other => some (other, h)
/-- `value.map(item => typeof item === 'object' && item !== null ?
this.maskSensitiveData(item) : item)`: referenced objects recurse as
records, referenced arrays go through their index-keyed entries and come
back as objects, primitives are kept. -/
def maskItemsH (sf : List String) :
    Nat → Heap → List HVal → Option (List HVal × Heap)
  | 0, _, _ => none
  | _ + 1, h, [] => some ([], h)
  | fuel + 1, h, item :: rest =>
      match item with
      | .ref r =>
          match h[r]? with
          | some (.fields entries) =>
              match maskEntriesH sf fuel h entries with
              | some (vs, h2) =>
                  match maskItemsH sf fuel (h2 ++ [.fields vs]) rest with
                  | some (is2, h3) => some (.ref h2.length :: is2, h3)
                  | none => none
              | none => none
          | some (.items elems) =>
              match maskIndexedH sf fuel h 0 elems with
              | some (vs, h2) =>
                  match maskItemsH sf fuel (h2 ++ [.fields vs]) rest with
                  | some (is2, h3) => some (.ref h2.length :: is2, h3)
                  | none => none
              | none => none
          | none => none
      | prim =>
          match maskItemsH sf fuel h rest with
          | some (is2, h3) => some (prim :: is2, h3)
          | none => none
/-- `maskSensitiveData` applied to an array reference: the entry loop over
the array's index-keyed `Object.entries`. -/
def maskIndexedH (sf : List String) :
    Nat → Heap → Nat → List HVal → Option (List (String × HVal) × Heap)
  | 0, _, _, _ => none
  | _ + 1, h, _, [] => some ([], h)
  | fuel + 1, h, i, v :: rest =>
      match maskValueH sf fuel h (toString i) v with
      | some (v2, h2) =>
          match maskIndexedH sf fuel h2 (i + 1) rest with
          | some (vs, h3) => some ((toString i, v2) :: vs, h3)
          | none => none
      | none => none
end

/-- Top-level `maskSensitiveData(data)` on a record reference: build a
fresh object from the masked entries and return its reference. -/
def maskSensitiveDataH (sf : List String) (fuel : Nat) (h : Heap)
    (r : Nat) : Option (Nat × Heap) :=
  match h[r]? with
  | some (.fields entries) =>
      match maskEntriesH sf fuel h entries with
      | some (vs, h2) => some (h2.length, h2 ++ [.fields vs])
      | none => none
  | _ => none

/-- The mask-over-heap functions only allocate: every successful run
extends the heap at the end and touches no existing cell. -/
theorem maskH_frame (sf : List String) : ∀ fuel : Nat,
    (∀ h es res h2, maskEntriesH sf fuel h es = some (res, h2) →
      ∃ ext, h2 = h ++ ext) ∧
    (∀ h k v res h2, maskValueH sf fuel h k v = some (res, h2) →
      ∃ ext, h2 = h ++ ext) ∧
    (∀ h its res h2, maskItemsH sf fuel h its = some (res, h2) →
      ∃ ext, h2 = h ++ ext) ∧
    (∀ h i vs res h2, maskIndexedH sf fuel h i vs = some (res, h2) →
      ∃ ext, h2 = h ++ ext) := by
  intro fuel
  induction fuel with
  | zero =>
      refine ⟨?_, ?_, ?_, ?_⟩ <;> intro h
      · intro es res h2 hrun
        simp [maskEntriesH] at hrun
      · intro k v res h2 hrun
        simp [maskValueH] at hrun
      · intro its res h2 hrun
        simp [maskItemsH] at hrun
      · intro i vs res h2 hrun
        simp [maskIndexedH] at hrun
  | succ fuel ih =>
      obtain ⟨ihE, ihV, ihI, ihX⟩ := ih
      refine ⟨?_, ?_, ?_, ?_⟩
      · intro h es res h2 hrun
        cases es with
        | nil =>
            simp only [maskEntriesH, Option.some_inj,
              Prod.mk.injEq] at hrun
            exact ⟨[], by simp [← hrun.2]⟩
        | cons kv rest =>
            obtain ⟨k, v⟩ := kv
            simp only [maskEntriesH] at hrun
            cases hv : maskValueH sf fuel h k v with
            | none => simp [hv] at hrun
            | some p =>
                obtain ⟨v2, hh2⟩ := p
                simp only [hv] at hrun
                cases he : maskEntriesH sf fuel hh2 rest with
                | none => simp [he] at hrun
                | some q =>
                    obtain ⟨vs, h3⟩ := q
                    simp only [he, Option.some_inj, Prod.mk.injEq] at hrun
                    obtain ⟨e1, he1⟩ := ihV h k v v2 hh2 hv
                    obtain ⟨e2, he2⟩ := ihE hh2 rest vs h3 he
                    exact ⟨e1 ++ e2,
                      by rw [← hrun.2, he2, he1, List.append_assoc]⟩
      · intro h k v res h2 hrun
        simp only [maskValueH] at hrun
        by_cases hs : isSensitiveKey sf k = true
        · simp only [hs, if_true, Option.some_inj, Prod.mk.injEq] at hrun
          exact ⟨[], by simp [← hrun.2]⟩
        · rw [if_neg hs] at hrun
          cases v with
          | ref r =>
              cases hg : h[r]? with
              | none => simp [hg] at hrun
              | some o =>
                  cases o with
                  | fields entries =>
                      simp only [hg] at hrun
                      cases he : maskEntriesH sf fuel h entries with
                      | none => simp [he] at hrun
                      | some q =>
                          obtain ⟨vs, hh2⟩ := q
                          simp only [he, Option.some_inj,
                            Prod.mk.injEq] at hrun
                          obtain ⟨e1, he1⟩ := ihE h entries vs hh2 he
                          exact ⟨e1 ++ [HObj.fields vs],
                            by rw [← hrun.2, he1, List.append_assoc]⟩
                  | items elems =>
                      simp only [hg] at hrun
                      cases hi : maskItemsH sf fuel h elems with
                      | none => simp [hi] at hrun
                      | some q =>
                          obtain ⟨vs, hh2⟩ := q
                          simp only [hi, Option.some_inj,
                            Prod.mk.injEq] at hrun
                          obtain ⟨e1, he1⟩ := ihI h elems vs hh2 hi
                          exact ⟨e1 ++ [HObj.items vs],
                            by rw [← hrun.2, he1, List.append_assoc]⟩
          | vstr s =>
              simp only [Option.some_inj, Prod.mk.injEq] at hrun
              exact ⟨[], by simp [← hrun.2]⟩
          | vnum n =>
              simp only [Option.some_inj, Prod.mk.injEq] at hrun
              exact ⟨[], by simp [← hrun.2]⟩
          | vbool b =>
              simp only [Option.some_inj, Prod.mk.injEq] at hrun
              exact ⟨[], by simp [← hrun.2]⟩
          | vnull =>
              simp only [Option.some_inj, Prod.mk.injEq] at hrun
              exact ⟨[], by simp [← hrun.2]⟩
          | vundef =>
              simp only [Option.some_inj, Prod.mk.injEq] at hrun
              exact ⟨[], by simp [← hrun.2]⟩
      · intro h its res h2 hrun
        cases its with
        | nil =>
            simp only [maskItemsH, Option.some_inj,
              Prod.mk.injEq] at hrun
            exact ⟨[], by simp [← hrun.2]⟩
        | cons item rest =>
            simp only [maskItemsH] at hrun
            cases item with
            | ref r =>
                cases hg : h[r]? with
                | none => simp [hg] at hrun
                | some o =>
                    cases o with
                    | fields entries =>
                        simp only [hg] at hrun
                        cases he : maskEntriesH sf fuel h entries with
                        | none => simp [he] at hrun
                        | some q =>
                            obtain ⟨vs, hh2⟩ := q
                            simp only [he] at hrun
                            cases hr2 : maskItemsH sf fuel
                                (hh2 ++ [HObj.fields vs]) rest with
                            | none => simp [hr2] at hrun
                            | some q2 =>
                                obtain ⟨is2, h3⟩ := q2
                                simp only [hr2, Option.some_inj,
                                  Prod.mk.injEq] at hrun
                                obtain ⟨e1, he1⟩ := ihE h entries vs hh2 he
                                obtain ⟨e2, he2⟩ := ihI
                                  (hh2 ++ [HObj.fields vs]) rest is2 h3 hr2
                                refine ⟨e1 ++ [HObj.fields vs] ++ e2, ?_⟩
                                rw [← hrun.2, he2, he1]
                                simp [List.append_assoc]
                    | items elems =>
                        simp only [hg] at hrun
                        cases he : maskIndexedH sf fuel h 0 elems with
                        | none => simp [he] at hrun
                        | some q =>
                            obtain ⟨vs, hh2⟩ := q
                            simp only [he] at hrun
                            cases hr2 : maskItemsH sf fuel
                                (hh2 ++ [HObj.fields vs]) rest with
                            | none => simp [hr2] at hrun
                            | some q2 =>
                                obtain ⟨is2, h3⟩ := q2
                                simp only [hr2, Option.some_inj,
                                  Prod.mk.injEq] at hrun
                                obtain ⟨e1, he1⟩ := ihX h 0 elems vs hh2 he
                                obtain ⟨e2, he2⟩ := ihI
                                  (hh2 ++ [HObj.fields vs]) rest is2 h3 hr2
                                refine ⟨e1 ++ [HObj.fields vs] ++ e2, ?_⟩
                                rw [← hrun.2, he2, he1]
                                simp [List.append_assoc]
            | vstr s =>
                cases hr2 : maskItemsH sf fuel h rest with
                | none => simp [hr2] at hrun
                | some q2 =>
                    obtain ⟨is2, h3⟩ := q2
                    simp only [hr2, Option.some_inj, Prod.mk.injEq] at hrun
                    obtain ⟨e2, he2⟩ := ihI h rest is2 h3 hr2
                    exact ⟨e2, by rw [← hrun.2, he2]⟩
            | vnum n =>
                cases hr2 : maskItemsH sf fuel h rest with
                | none => simp [hr2] at hrun
                | some q2 =>
                    obtain ⟨is2, h3⟩ := q2
                    simp only [hr2, Option.some_inj, Prod.mk.injEq] at hrun
                    obtain ⟨e2, he2⟩ := ihI h rest is2 h3 hr2
                    exact ⟨e2, by rw [← hrun.2, he2]⟩
            | vbool b =>
                cases hr2 : maskItemsH sf fuel h rest with
                | none => simp [hr2] at hrun
                | some q2 =>
                    obtain ⟨is2, h3⟩ := q2
                    simp only [hr2, Option.some_inj, Prod.mk.injEq] at hrun
                    obtain ⟨e2, he2⟩ := ihI h rest is2 h3 hr2
                    exact ⟨e2, by rw [← hrun.2, he2]⟩
            | vnull =>
                cases hr2 : maskItemsH sf fuel h rest with
                | none => simp [hr2] at hrun
                | some q2 =>
                    obtain ⟨is2, h3⟩ := q2
                    simp only [hr2, Option.some_inj, Prod.mk.injEq] at hrun
                    obtain ⟨e2, he2⟩ := ihI h rest is2 h3 hr2
                    exact ⟨e2, by rw [← hrun.2, he2]⟩
            | vundef =>
                cases hr2 : maskItemsH sf fuel h rest with
                | none => simp [hr2] at hrun
                | some q2 =>
                    obtain ⟨is2, h3⟩ := q2
                    simp only [hr2, Option.some_inj, Prod.mk.injEq] at hrun
                    obtain ⟨e2, he2⟩ := ihI h rest is2 h3 hr2
                    exact ⟨e2, by rw [← hrun.2, he2]⟩
      · intro h i vs res h2 hrun
        cases vs with
        | nil =>
            simp only [maskIndexedH, Option.some_inj,
              Prod.mk.injEq] at hrun
            exact ⟨[], by simp [← hrun.2]⟩
        | cons v rest =>
            simp only [maskIndexedH] at hrun
            cases hv : maskValueH sf fuel h (toString i) v with
            | none => simp [hv] at hrun
            | some p =>
                obtain ⟨v2, hh2⟩ := p
                simp only [hv] at hrun
                cases he : maskIndexedH sf fuel hh2 (i + 1) rest with
                | none => simp [he] at hrun
                | some q =>
                    obtain ⟨ws, h3⟩ := q
                    simp only [he, Option.some_inj, Prod.mk.injEq] at hrun
                    obtain ⟨e1, he1⟩ := ihV h (toString i) v v2 hh2 hv
                    obtain ⟨e2, he2⟩ := ihX hh2 (i + 1) rest ws h3 he
                    exact ⟨e1 ++ e2,
                      by rw [← hrun.2, he2, he1, List.append_assoc]⟩

/-- C9: `maskSensitiveData` is pure with respect to its argument — every
terminating run returns a freshly allocated mapping (its reference lies
beyond the caller's heap) and leaves every pre-existing heap cell, hence
the input mapping and all its nested objects and array elements,
exactly as they were. -/
theorem c9_mask_never_mutates (sf : List String) (fuel : Nat) (h : Heap)
    (r res : Nat) (h2 : Heap)
    (hrun : maskSensitiveDataH sf fuel h r = some (res, h2)) :
    (∃ ext, h2 = h ++ ext) ∧
      (∀ i, i < h.length → h2[i]? = h[i]?) ∧
      h.length ≤ res := by
  unfold maskSensitiveDataH at hrun
  cases hg : h[r]? with
  | none => simp [hg] at hrun
  | some o =>
      cases o with
      | items elems => simp [hg] at hrun
      | fields entries =>
          simp only [hg] at hrun
          cases he : maskEntriesH sf fuel h entries with
          | none => simp [he] at hrun
          | some q =>
              obtain ⟨vs, hh⟩ := q
              simp only [he, Option.some_inj, Prod.mk.injEq] at hrun
              obtain ⟨ext, hext⟩ :=
                (maskH_frame sf fuel).1 h entries vs hh he
              have hh2 : h2 = h ++ (ext ++ [HObj.fields vs]) := by
                rw [← hrun.2, hext, List.append_assoc]
              refine ⟨⟨ext ++ [HObj.fields vs], hh2⟩, ?_, ?_⟩
              · intro i hi
                rw [hh2]
                exact List.getElem?_append_left hi
              · rw [← hrun.1, hext]
                simp

/-- C9 witness: a concrete run on a heap holding
`\x7bpassword: "secret", user: \x7btoken: "abc"\x7d\x7d` with sensitive
field `password`; both original cells survive unchanged and the result is
the fresh cell 3. -/
theorem c9_witness :
    (∃ ext,
        ([HObj.fields [("password", HVal.vstr "secret"),
            ("user", HVal.ref 1)],
          HObj.fields [("token", HVal.vstr "abc")],
          HObj.fields [("token", HVal.vstr "abc")],
          HObj.fields [("password", HVal.vstr "[REDACTED]"),
            ("user", HVal.ref 2)]] : Heap) =
          [HObj.fields [("password", HVal.vstr "secret"),
            ("user", HVal.ref 1)],
           HObj.fields [("token", HVal.vstr "abc")]] ++ ext) ∧
      (∀ i, i <
          ([HObj.fields [("password", HVal.vstr "secret"),
              ("user", HVal.ref 1)],
            HObj.fields [("token", HVal.vstr "abc")]] : Heap).length →
        ([HObj.fields [("password", HVal.vstr "secret"),
            ("user", HVal.ref 1)],
          HObj.fields [("token", HVal.vstr "abc")],
          HObj.fields [("token", HVal.vstr "abc")],
          HObj.fields [("password", HVal.vstr "[REDACTED]"),
            ("user", HVal.ref 2)]] : Heap)[i]? =
          ([HObj.fields [("password", HVal.vstr "secret"),
              ("user", HVal.ref 1)],
            HObj.fields [("token", HVal.vstr "abc")]] : Heap)[i]?) ∧
      ([HObj.fields [("password", HVal.vstr "secret"),
          ("user", HVal.ref 1)],
        HObj.fields [("token", HVal.vstr "abc")]] : Heap).length ≤ 3 :=
  c9_mask_never_mutates ["password"] 5
    [HObj.fields [("password", HVal.vstr "secret"), ("user", HVal.ref 1)],
     HObj.fields [("token", HVal.vstr "abc")]] 0 3
    [HObj.fields [("password", HVal.vstr "secret"), ("user", HVal.ref 1)],
     HObj.fields [("token", HVal.vstr "abc")],
     HObj.fields [("token", HVal.vstr "abc")],
     HObj.fields [("password", HVal.vstr "[REDACTED]"),
       ("user", HVal.ref 2)]]
    (by decide)

end ExpressOtel
